import Mathlib

/-!
Verification development for the p2p chat relay in this repository
(src/p2p/src/common.rs, server.rs, client.rs).

Modelling conventions:
* Rust byte buffers (Vec<u8>, &[u8]) are lists of byte values (Nat).
* Rust String values are modelled by their UTF-8 byte content (Rust string
  equality is byte equality, so this is faithful for all claims here).
* serde_json is embedded concretely: a JSON value AST, a renderer that
  produces exactly serde_json::to_string's output (no whitespace, lowercase
  hex escapes, fixed field order for derived structs), and a recursive
  descent parser for the subset of JSON that the protocol exchanges
  (JSON numbers are modelled as non-negative integers, the only numeric
  values the Message envelope carries; serde_json's float/negative forms
  and its duplicate-field error are outside the model and are noted where
  relevant).  The parser carries explicit fuel; serde_json itself bounds
  recursion depth (default 128), and the fuel chosen in deserialize_message
  exceeds what any input of that length can consume.
* mio Tokens are Nat, Instant is Nat (seconds), SystemTime is a pair of
  seconds/nanoseconds since the epoch, exactly the representation serde
  serializes.
-/

namespace P2P

/-- Byte buffers (Rust Vec<u8> / &[u8]). -/
abbrev Bytes := List Nat

/-- Rust String, modelled by its UTF-8 byte content. -/
abbrev ByteStr := List Nat

/-- Bytes of an ASCII Lean string literal (used only for ASCII constants
such as JSON keys and enum tags, where code points and UTF-8 bytes agree). -/
def asciiBytes (s : String) : Bytes := s.data.map Char.toNat

/-- UTF-8 continuation byte (0x80..=0xBF). -/
def isCont (b : Nat) : Bool := decide (0x80 ≤ b ∧ b ≤ 0xBF)

/-- Admissible first continuation byte of a 3-byte sequence: the E0 and
ED rows of the std validation table restrict it (rejecting overlong
forms and surrogates), the others take any continuation byte. -/
def utf8Lead3Ok (b c1 : Nat) : Bool :=
  if b = 0xE0 then decide (0xA0 ≤ c1 ∧ c1 ≤ 0xBF)
  else if b = 0xED then decide (0x80 ≤ c1 ∧ c1 ≤ 0x9F)
  else isCont c1

/-- Admissible first continuation byte of a 4-byte sequence: the F0 and
F4 rows restrict it (rejecting overlong forms and values beyond
U+10FFFF), F1..F3 take any continuation byte. -/
def utf8Lead4Ok (b c1 : Nat) : Bool :=
  if b = 0xF0 then decide (0x90 ≤ c1 ∧ c1 ≤ 0xBF)
  else if b = 0xF4 then decide (0x80 ≤ c1 ∧ c1 ≤ 0x8F)
  else isCont c1

/-- Validity of a byte sequence as UTF-8, with exactly the accepting set
of the table used by core::str validation (std::str::from_utf8): ASCII,
2-byte leads C2..DF, 3-byte leads E0..EF with the E0/ED special ranges,
4-byte leads F0..F4 with the F0/F4 special ranges; stray continuation
bytes, overlong forms, surrogates and leads above F4 are rejected (they
fall through every lead test below into false). -/
def utf8Valid : Bytes → Bool
  | [] => true
  | b :: rest =>
    if b < 0x80 then utf8Valid rest
    else
      match rest with
      | c1 :: r1 =>
        if 0xC2 ≤ b ∧ b ≤ 0xDF then isCont c1 && utf8Valid r1
        else
          match r1 with
          | c2 :: r2 =>
            if 0xE0 ≤ b ∧ b ≤ 0xEF then utf8Lead3Ok b c1 && isCont c2 && utf8Valid r2
            else
              match r2 with
              | c3 :: r3 =>
                if 0xF0 ≤ b ∧ b ≤ 0xF4 then
                  utf8Lead4Ok b c1 && isCont c2 && isCont c3 && utf8Valid r3
                else false
              | [] => false
          | [] => false
      | [] => false

/-- Lowercase hex digit byte, as in serde_json's escape table. -/
def hexDigitByte (n : Nat) : Nat := if n < 10 then 48 + n else 87 + n

/-- serde_json's escaping of one byte inside a JSON string: quote and
backslash get a backslash escape, the five named control characters get
their short forms, remaining control bytes below 0x20 get a lowercase
\u00XX escape, and every other byte is emitted verbatim. -/
def escapeByte (b : Nat) : Bytes :=
  if b = 0x22 then [0x5C, 0x22]
  else if b = 0x5C then [0x5C, 0x5C]
  else if b = 0x08 then [0x5C, 0x62]
  else if b = 0x09 then [0x5C, 0x74]
  else if b = 0x0A then [0x5C, 0x6E]
  else if b = 0x0C then [0x5C, 0x66]
  else if b = 0x0D then [0x5C, 0x72]
  else if b < 0x20 then [0x5C, 0x75, 0x30, 0x30, hexDigitByte (b / 16), hexDigitByte (b % 16)]
  else [b]

/-- serde_json string-body escaping, byte by byte. -/
def escapeStr : ByteStr → Bytes
  | [] => []
  | b :: r => escapeByte b ++ escapeStr r

/-- Big-endian decimal digit values of n. -/
def natDecDigits (n : Nat) : List Nat :=
  if h : n < 10 then [n] else natDecDigits (n / 10) ++ [n % 10]
  decreasing_by exact Nat.div_lt_self (by omega) (by omega)

/-- Decimal ASCII rendering of a non-negative integer (serde_json's
output for u16/u32/u64 values). -/
def renderNat (n : Nat) : Bytes := (natDecDigits n).map (fun d => 48 + d)

/-- JSON value AST covering what the protocol exchanges. -/
inductive JValue where
  | jnull
  | jbool (b : Bool)
  | jnum (n : Nat)
  | jstr (s : ByteStr)
  | jarr (elems : List JValue)
  | jobj (members : List (ByteStr × JValue))

mutual

/-- serde_json::to_string rendering: no whitespace, object members in
struct declaration order, strings escaped as above. -/
def renderJValue : JValue → Bytes
  | .jnull => asciiBytes "null"
  | .jbool true => asciiBytes "true"
  | .jbool false => asciiBytes "false"
  | .jnum n => renderNat n
  | .jstr s => 0x22 :: (escapeStr s ++ [0x22])
  | .jarr es => 0x5B :: renderArrElems es
  | .jobj ms => 0x7B :: renderObjMembers ms

def renderArrElems : List JValue → Bytes
  | [] => [0x5D]
  | [e] => renderJValue e ++ [0x5D]
  | e :: es => renderJValue e ++ 0x2C :: renderArrElems es

def renderObjMembers : List (ByteStr × JValue) → Bytes
  | [] => [0x7D]
  | [kv] => renderMember kv ++ [0x7D]
  | kv :: ms => renderMember kv ++ 0x2C :: renderObjMembers ms

def renderMember : ByteStr × JValue → Bytes
  | (k, v) => (0x22 :: (escapeStr k ++ [0x22])) ++ 0x3A :: renderJValue v

end

/-- ASCII decimal digit byte. -/
def isDigitByte (b : Nat) : Bool := decide (48 ≤ b ∧ b ≤ 57)

/-- JSON insignificant whitespace (space, tab, line feed, carriage return). -/
def isWsByte (b : Nat) : Bool := decide (b = 0x20 ∨ b = 0x09 ∨ b = 0x0A ∨ b = 0x0D)

def skipWs : Bytes → Bytes
  | [] => []
  | b :: r => if isWsByte b then skipWs r else b :: r

/-- Accumulating decimal parse of a run of digit bytes. -/
def parseDigitsAux : Bytes → Nat → Nat × Bytes
  | [], acc => (acc, [])
  | b :: r, acc =>
    if isDigitByte b then parseDigitsAux r (acc * 10 + (b - 48)) else (acc, b :: r)

/-- Parse a non-negative JSON integer (the only numeric form the
protocol's envelope carries). -/
def parseJNum : Bytes → Option (Nat × Bytes)
  | [] => none
  | b :: r => if isDigitByte b then some (parseDigitsAux r (b - 48)) else none

/-- Value of one hex digit byte (either case). -/
def hexVal (b : Nat) : Option Nat :=
  if 48 ≤ b ∧ b ≤ 57 then some (b - 48)
  else if 97 ≤ b ∧ b ≤ 102 then some (b - 87)
  else if 65 ≤ b ∧ b ≤ 70 then some (b - 55)
  else none

/-- UTF-8 encoding of a code point (used for \uXXXX escapes). -/
def utf8EncodeScalar (cp : Nat) : Bytes :=
  if cp < 0x80 then [cp]
  else if cp < 0x800 then [0xC0 + cp / 64, 0x80 + cp % 64]
  else if cp < 0x10000 then [0xE0 + cp / 4096, 0x80 + cp / 64 % 64, 0x80 + cp % 64]
  else [0xF0 + cp / 262144, 0x80 + cp / 4096 % 64, 0x80 + cp / 64 % 64, 0x80 + cp % 64]

/-- Map a function over the produced value of a parse result. -/
def pmap {α β : Type} (f : α → β) : Option (α × Bytes) → Option (β × Bytes)
  | some (a, rest) => some (f a, rest)
  | none => none

/-- Resolution of a single-character backslash escape. -/
def unescapeByte (e : Nat) : Option Nat :=
  if e = 0x22 then some 0x22
  else if e = 0x5C then some 0x5C
  else if e = 0x2F then some 0x2F
  else if e = 0x62 then some 0x08
  else if e = 0x74 then some 0x09
  else if e = 0x6E then some 0x0A
  else if e = 0x66 then some 0x0C
  else if e = 0x72 then some 0x0D
  else none

/-- Parse a JSON string body after the opening quote: stops at the first
unescaped quote, resolves backslash escapes, rejects unescaped control
bytes, passes all other bytes through verbatim.  Lone-surrogate \u escapes
are encoded directly rather than rejected (a divergence from serde_json
only on inputs the serializer never produces). -/
def parseJString : Bytes → Option (ByteStr × Bytes)
  | [] => none
  | b :: r =>
    if b = 0x22 then some ([], r)
    else if b = 0x5C then
      match r with
      | [] => none
      | e :: r2 =>
        if e = 0x75 then
          match r2 with
          | h1 :: h2 :: h3 :: h4 :: r3 =>
            match hexVal h1, hexVal h2, hexVal h3, hexVal h4 with
            | some v1, some v2, some v3, some v4 =>
                pmap (fun s => utf8EncodeScalar (((v1 * 16 + v2) * 16 + v3) * 16 + v4) ++ s)
                  (parseJString r3)
            | _, _, _, _ => none
          | _ => none
        else
          match unescapeByte e with
          | some c => pmap (fun s => c :: s) (parseJString r2)
          | none => none
    else if b < 0x20 then none
    else pmap (fun s => b :: s) (parseJString r)

mutual

/-- Fueled recursive-descent JSON value parser. -/
def parseJValue : Nat → Bytes → Option (JValue × Bytes)
  | 0, _ => none
  | fuel + 1, input =>
    match skipWs input with
    | [] => none
    | b :: r =>
      if b = 0x22 then pmap JValue.jstr (parseJString r)
      else if b = 0x5B then
        match skipWs r with
        | 0x5D :: rest => some (.jarr [], rest)
        | _ => pmap JValue.jarr (parseArrElemsP fuel r)
      else if b = 0x7B then
        match skipWs r with
        | 0x7D :: rest => some (.jobj [], rest)
        | _ => pmap JValue.jobj (parseObjMembersP fuel r)
      else if b = 0x6E then
        match r with
        | 0x75 :: 0x6C :: 0x6C :: rest => some (.jnull, rest)
        | _ => none
      else if b = 0x74 then
        match r with
        | 0x72 :: 0x75 :: 0x65 :: rest => some (.jbool true, rest)
        | _ => none
      else if b = 0x66 then
        match r with
        | 0x61 :: 0x6C :: 0x73 :: 0x65 :: rest => some (.jbool false, rest)
        | _ => none
      else if isDigitByte b then pmap JValue.jnum (parseJNum (b :: r))
      else none

/-- Comma-separated array elements up to the closing bracket. -/
def parseArrElemsP : Nat → Bytes → Option (List JValue × Bytes)
  | 0, _ => none
  | fuel + 1, input =>
    (parseJValue fuel input).bind fun vr =>
      match skipWs vr.2 with
      | 0x2C :: r2 => pmap (fun vs => vr.1 :: vs) (parseArrElemsP fuel r2)
      | 0x5D :: r2 => some ([vr.1], r2)
      | _ => none

/-- Comma-separated key:value members up to the closing brace. -/
def parseObjMembersP : Nat → Bytes → Option (List (ByteStr × JValue) × Bytes)
  | 0, _ => none
  | fuel + 1, input =>
    match skipWs input with
    | 0x22 :: r =>
      (parseJString r).bind fun kr =>
        match skipWs kr.2 with
        | 0x3A :: r3 =>
          (parseJValue fuel r3).bind fun vr =>
            match skipWs vr.2 with
            | 0x2C :: r5 => pmap (fun ms => (kr.1, vr.1) :: ms) (parseObjMembersP fuel r5)
            | 0x7D :: r5 => some ([(kr.1, vr.1)], r5)
            | _ => none
        | _ => none
    | _ => none

end

/-! ## The Message envelope (src/p2p/src/common.rs)

server.rs was drafted against an earlier revision of the envelope (its
literals mention a sender_token field and omit source); common.rs is the
final authoritative definition, and messages the server constructs are
modelled with the wire default source = Server, which is also what any
receiver deserializing them obtains. -/

/-- Message origin tag (common.rs MessageSource). -/
inductive MessageSource where
  | Server
  | Peer
  deriving DecidableEq, Repr

/-- Protocol message types (common.rs MessageType). -/
inductive MessageType where
  | Join
  | Chat
  | Leave
  | PeerList
  | PeerListRequest
  | ConnectRequest
  | ConnectResponse
  | Heartbeat
  | UserJoined
  | UserLeft
  deriving DecidableEq, Repr

/-- SystemTime as serde serializes it: whole seconds and subsecond
nanoseconds since the Unix epoch. -/
structure SystemTime where
  secs_since_epoch : Nat
  nanos_since_epoch : Nat
  deriving DecidableEq, Repr

/-- The protocol envelope (common.rs struct Message). -/
structure Message where
  msg_type : MessageType
  sender_id : ByteStr
  target_id : Option ByteStr
  content : Option ByteStr
  sender_peer_address : ByteStr
  sender_listen_port : Nat
  timestamp : SystemTime
  source : MessageSource
  deriving DecidableEq, Repr

/-- common.rs default_message_source: the serde default used when the
source field is absent from the wire. -/
def default_message_source : MessageSource := MessageSource.Server

/-- Error type (common.rs P2PError); the payloads (io::Error,
serde_json::Error, message strings) are opaque to every claim and are
dropped from the model. -/
inductive P2PError where
  | ioError
  | serializationError
  | connectionError
  | peerNotFound
  deriving DecidableEq, Repr

/-- serde tag for a MessageType variant. -/
def msgTypeTag : MessageType → ByteStr
  | .Join => asciiBytes "Join"
  | .Chat => asciiBytes "Chat"
  | .Leave => asciiBytes "Leave"
  | .PeerList => asciiBytes "PeerList"
  | .PeerListRequest => asciiBytes "PeerListRequest"
  | .ConnectRequest => asciiBytes "ConnectRequest"
  | .ConnectResponse => asciiBytes "ConnectResponse"
  | .Heartbeat => asciiBytes "Heartbeat"
  | .UserJoined => asciiBytes "UserJoined"
  | .UserLeft => asciiBytes "UserLeft"

/-- Inverse of msgTypeTag, as serde's derived deserializer matches
variant names. -/
def msgTypeFromTag (s : ByteStr) : Option MessageType :=
  if s = asciiBytes "Join" then some .Join
  else if s = asciiBytes "Chat" then some .Chat
  else if s = asciiBytes "Leave" then some .Leave
  else if s = asciiBytes "PeerList" then some .PeerList
  else if s = asciiBytes "PeerListRequest" then some .PeerListRequest
  else if s = asciiBytes "ConnectRequest" then some .ConnectRequest
  else if s = asciiBytes "ConnectResponse" then some .ConnectResponse
  else if s = asciiBytes "Heartbeat" then some .Heartbeat
  else if s = asciiBytes "UserJoined" then some .UserJoined
  else if s = asciiBytes "UserLeft" then some .UserLeft
  else none

/-- serde tag for a MessageSource variant. -/
def sourceTag : MessageSource → ByteStr
  | .Server => asciiBytes "Server"
  | .Peer => asciiBytes "Peer"

def sourceFromTag (s : ByteStr) : Option MessageSource :=
  if s = asciiBytes "Server" then some .Server
  else if s = asciiBytes "Peer" then some .Peer
  else none

def jsonOfOptStr : Option ByteStr → JValue
  | none => .jnull
  | some s => .jstr s

def jsonOfSystemTime (t : SystemTime) : JValue :=
  .jobj [(asciiBytes "secs_since_epoch", .jnum t.secs_since_epoch),
         (asciiBytes "nanos_since_epoch", .jnum t.nanos_since_epoch)]

/-- The JSON document serde_json produces for a Message, members in
struct declaration order. -/
def jsonOfMessage (m : Message) : JValue :=
  .jobj [(asciiBytes "msg_type", .jstr (msgTypeTag m.msg_type)),
         (asciiBytes "sender_id", .jstr m.sender_id),
         (asciiBytes "target_id", jsonOfOptStr m.target_id),
         (asciiBytes "content", jsonOfOptStr m.content),
         (asciiBytes "sender_peer_address", .jstr m.sender_peer_address),
         (asciiBytes "sender_listen_port", .jnum m.sender_listen_port),
         (asciiBytes "timestamp", jsonOfSystemTime m.timestamp),
         (asciiBytes "source", .jstr (sourceTag m.source))]

/-- common.rs serialize_message: serde_json::to_string followed by the
single b'\n' frame delimiter.  The Rust signature wraps the result in
Result, but serde_json::to_string cannot fail on this envelope type
(strings, numbers, unit enum variants only), so the error path is dead
and the model is total. -/
def serialize_message (m : Message) : Bytes :=
  renderJValue (jsonOfMessage m) ++ [10]

/-- First member bound to a key, as serde's derived visitor fills fields. -/
def jLookup (ms : List (ByteStr × JValue)) (k : ByteStr) : Option JValue :=
  (ms.find? (fun kv => kv.1 == k)).map (fun kv => kv.2)

/-- Required string field. -/
def reqStr (ms : List (ByteStr × JValue)) (k : ByteStr) : Option ByteStr :=
  match jLookup ms k with
  | some (.jstr s) => some s
  | _ => none

/-- Option-of-string field: missing and null both mean None (serde treats
a missing Option field as None), a string means Some, and any other
value is a type error. -/
def optStrField (ms : List (ByteStr × JValue)) (k : ByteStr) : Option (Option ByteStr) :=
  match jLookup ms k with
  | none => some none
  | some .jnull => some none
  | some (.jstr s) => some (some s)
  | some _ => none

/-- Required unsigned-integer field with the width's range check, as
serde enforces for u16/u32/u64. -/
def reqNumLt (ms : List (ByteStr × JValue)) (k : ByteStr) (bound : Nat) : Option Nat :=
  match jLookup ms k with
  | some (.jnum n) => if n < bound then some n else none
  | _ => none

/-- serde's SystemTime deserialization: secs as u64, nanos as u32,
nanoseconds at or above 10^9 carried into seconds (Duration
normalization) with the carried seconds still bounded by u64. -/
def fromJsonSystemTime : JValue → Option SystemTime
  | .jobj ms =>
    match reqNumLt ms (asciiBytes "secs_since_epoch") (2 ^ 64),
          reqNumLt ms (asciiBytes "nanos_since_epoch") (2 ^ 32) with
    | some s, some n =>
      if s + n / 1000000000 < 2 ^ 64 then
        some ⟨s + n / 1000000000, n % 1000000000⟩
      else none
    | _, _ => none
  | _ => none

/-- serde's derived deserializer for Message: members in any order,
unknown members ignored, Option fields defaulting to None when missing,
and source defaulting to Server (the serde(default) attribute in
common.rs) when missing. -/
def fromJsonMessage : JValue → Option Message
  | .jobj ms => do
    let tag ← reqStr ms (asciiBytes "msg_type")
    let mt ← msgTypeFromTag tag
    let sid ← reqStr ms (asciiBytes "sender_id")
    let tid ← optStrField ms (asciiBytes "target_id")
    let cont ← optStrField ms (asciiBytes "content")
    let addr ← reqStr ms (asciiBytes "sender_peer_address")
    let port ← reqNumLt ms (asciiBytes "sender_listen_port") (2 ^ 16)
    let tsv ← jLookup ms (asciiBytes "timestamp")
    let ts ← fromJsonSystemTime tsv
    let src ←
      match jLookup ms (asciiBytes "source") with
      | none => some default_message_source
      | some (.jstr s) => sourceFromTag s
      | some _ => none
    some ⟨mt, sid, tid, cont, addr, port, ts, src⟩
  | _ => none

/-- common.rs deserialize_message: std::str::from_utf8 (the utf8Valid
gate), then serde_json::from_str, which parses exactly one JSON value
with nothing but whitespace after it; every failure is mapped to
P2PError::SerializationError. -/
def deserialize_message (data : Bytes) : Except P2PError Message :=
  if utf8Valid data then
    match parseJValue (data.length + 1) data with
    | some (v, rest) =>
      if skipWs rest = [] then
        match fromJsonMessage v with
        | some m => Except.ok m
        | none => Except.error P2PError.serializationError
      else Except.error P2PError.serializationError
    | none => Except.error P2PError.serializationError
  else Except.error P2PError.serializationError

/-- UTF-8 validity of an optional string field. -/
def validStrOpt : Option ByteStr → Bool
  | none => true
  | some s => utf8Valid s

/-- A well-formed Rust Message value: every String field holds valid
UTF-8 (guaranteed by Rust's String type), the port fits in u16, and the
timestamp is a normalized SystemTime (seconds in u64, subsecond
nanoseconds below 10^9). -/
def validMessage (m : Message) : Prop :=
  utf8Valid m.sender_id = true ∧
  validStrOpt m.target_id = true ∧
  validStrOpt m.content = true ∧
  utf8Valid m.sender_peer_address = true ∧
  m.sender_listen_port < 2 ^ 16 ∧
  m.timestamp.secs_since_epoch < 2 ^ 64 ∧
  m.timestamp.nanos_since_epoch < 1000000000

instance (m : Message) : Decidable (validMessage m) := by
  unfold validMessage; infer_instance

/-! ## Codec round-trip lemmas -/

theorem hexVal_hexDigitByte (n : Nat) (h : n < 16) : hexVal (hexDigitByte n) = some n := by
  interval_cases n <;> decide

theorem parseJString_escape (s : ByteStr) (rest : Bytes) :
    parseJString (escapeStr s ++ 0x22 :: rest) = some (s, rest) := by
  induction s with
  | nil =>
    simp only [escapeStr, List.nil_append]
    rw [parseJString.eq_def]; simp
  | cons b s ih =>
    show parseJString ((escapeByte b ++ escapeStr s) ++ 0x22 :: rest) = _
    by_cases h1 : b = 0x22
    · subst h1; simp only [escapeByte, if_pos rfl, List.cons_append, List.append_assoc]
      rw [parseJString.eq_def]; simp [unescapeByte, pmap, ih]
    · by_cases h2 : b = 0x5C
      · subst h2; simp only [escapeByte, if_neg h1, if_pos rfl, List.cons_append,
          List.append_assoc]
        rw [parseJString.eq_def]; simp [unescapeByte, pmap, ih]
      · by_cases h3 : b = 0x08
        · subst h3; simp only [escapeByte, if_neg h1, if_neg h2, if_pos rfl,
            List.cons_append, List.append_assoc]
          rw [parseJString.eq_def]; simp [unescapeByte, pmap, ih]
        · by_cases h4 : b = 0x09
          · subst h4; simp only [escapeByte, if_neg h1, if_neg h2, if_neg h3, if_pos rfl,
              List.cons_append, List.append_assoc]
            rw [parseJString.eq_def]; simp [unescapeByte, pmap, ih]
          · by_cases h5 : b = 0x0A
            · subst h5; simp only [escapeByte, if_neg h1, if_neg h2, if_neg h3, if_neg h4,
                if_pos rfl, List.cons_append, List.append_assoc]
              rw [parseJString.eq_def]; simp [unescapeByte, pmap, ih]
            · by_cases h6 : b = 0x0C
              · subst h6; simp only [escapeByte, if_neg h1, if_neg h2, if_neg h3,
                  if_neg h4, if_neg h5, if_pos rfl, List.cons_append, List.append_assoc]
                rw [parseJString.eq_def]; simp [unescapeByte, pmap, ih]
              · by_cases h7 : b = 0x0D
                · subst h7; simp only [escapeByte, if_neg h1, if_neg h2, if_neg h3,
                    if_neg h4, if_neg h5, if_neg h6, if_pos rfl, List.cons_append,
                    List.append_assoc]
                  rw [parseJString.eq_def]; simp [unescapeByte, pmap, ih]
                · by_cases h8 : b < 0x20
                  · have hdiv : b / 16 < 16 := by omega
                    have hmod : b % 16 < 16 := by omega
                    have henc : utf8EncodeScalar (b / 16 * 16 + b % 16) = [b] := by
                      have hb : b / 16 * 16 + b % 16 = b := by omega
                      rw [hb]; unfold utf8EncodeScalar
                      rw [if_pos (by omega)]
                    simp only [escapeByte, if_neg h1, if_neg h2, if_neg h3, if_neg h4,
                      if_neg h5, if_neg h6, if_neg h7, if_pos h8, List.cons_append,
                      List.append_assoc]
                    have hx : hexVal 48 = some 0 := by decide
                    rw [parseJString.eq_def]
                    simp [pmap, hx, hexVal_hexDigitByte _ hdiv, hexVal_hexDigitByte _ hmod,
                      henc, ih]
                  · simp only [escapeByte, if_neg h1, if_neg h2, if_neg h3, if_neg h4,
                      if_neg h5, if_neg h6, if_neg h7, if_neg h8, List.cons_append,
                      List.nil_append, List.append_assoc]
                    rw [parseJString.eq_def]
                    simp [pmap, h1, h2, h8, ih]

/-- Every decimal digit value produced by natDecDigits is below 10. -/
theorem natDecDigits_lt (n : Nat) : ∀ d ∈ natDecDigits n, d < 10 := by
  induction n using natDecDigits.induct with
  | case1 n h =>
    intro d hd
    unfold natDecDigits at hd
    rw [dif_pos h] at hd
    simp at hd; omega
  | case2 n h ih =>
    intro d hd
    unfold natDecDigits at hd
    rw [dif_neg h] at hd
    rcases List.mem_append.mp hd with h1 | h1
    · exact ih d h1
    · simp at h1; omega

theorem natDecDigits_ne_nil (n : Nat) : natDecDigits n ≠ [] := by
  unfold natDecDigits
  by_cases h : n < 10
  · rw [dif_pos h]; simp
  · rw [dif_neg h]; simp

theorem parseDigitsAux_digits (ds : List Nat) (hds : ∀ d ∈ ds, d < 10)
    (rest : Bytes) (acc : Nat) :
    parseDigitsAux (ds.map (fun d => 48 + d) ++ rest) acc
      = parseDigitsAux rest (ds.foldl (fun a d => a * 10 + d) acc) := by
  induction ds generalizing acc with
  | nil => simp
  | cons d ds ih =>
    have hd : d < 10 := hds d (by simp)
    have hdig : isDigitByte (48 + d) = true := by simp [isDigitByte]; omega
    simp only [List.map_cons, List.cons_append, parseDigitsAux, hdig, if_pos]
    have : 48 + d - 48 = d := by omega
    rw [this]
    exact ih (fun x hx => hds x (by simp [hx])) _

theorem parseDigitsAux_stop (rest : Bytes) (acc : Nat)
    (h : ∀ b, rest.head? = some b → isDigitByte b = false) :
    parseDigitsAux rest acc = (acc, rest) := by
  cases rest with
  | nil => simp [parseDigitsAux]
  | cons b r => simp [parseDigitsAux, h b rfl]

theorem foldl_natDecDigits (n : Nat) (acc : Nat) :
    (natDecDigits n).foldl (fun a d => a * 10 + d) acc
      = acc * 10 ^ (natDecDigits n).length + n := by
  induction n using natDecDigits.induct generalizing acc with
  | case1 n h => unfold natDecDigits; rw [dif_pos h]; simp
  | case2 n h ih =>
    unfold natDecDigits; rw [dif_neg h]
    rw [List.foldl_append, ih]
    simp [List.length_append, pow_succ]
    ring_nf
    omega

theorem parseJNum_renderNat (n : Nat) (rest : Bytes)
    (h : ∀ b, rest.head? = some b → isDigitByte b = false) :
    parseJNum (renderNat n ++ rest) = some (n, rest) := by
  rcases hds : natDecDigits n with _ | ⟨d, ds⟩
  · exact absurd hds (natDecDigits_ne_nil n)
  · have hlt : ∀ x ∈ d :: ds, x < 10 := by rw [← hds]; exact natDecDigits_lt n
    have hd : d < 10 := hlt d (by simp)
    have hdig : isDigitByte (48 + d) = true := by simp [isDigitByte]; omega
    have hfold : (d :: ds).foldl (fun a x => a * 10 + x) 0 = n := by
      have := foldl_natDecDigits n 0
      rw [hds] at this; simpa using this
    simp only [renderNat, hds, List.map_cons, List.cons_append, parseJNum, hdig, if_pos]
    have hstep : 48 + d - 48 = d := by omega
    rw [hstep]
    rw [parseDigitsAux_digits ds (fun x hx => hlt x (by simp [hx])) rest d,
        parseDigitsAux_stop rest _ h]
    have : ds.foldl (fun a x => a * 10 + x) d = n := by simpa using hfold
    rw [this]

/-- Heads that stop a decimal-digit scan. -/
def NonDigitHead (l : Bytes) : Prop := ∀ b, l.head? = some b → isDigitByte b = false

theorem parseJValue_str (fuel : Nat) (s : ByteStr) (rest : Bytes) :
    parseJValue (fuel + 1) (renderJValue (.jstr s) ++ rest) = some (.jstr s, rest) := by
  have hshape : renderJValue (.jstr s) ++ rest = 0x22 :: (escapeStr s ++ (0x22 :: rest)) := by
    simp [renderJValue]
  rw [hshape, parseJValue.eq_def]
  simp [skipWs, isWsByte, parseJString_escape, pmap]

theorem parseJValue_num (fuel n : Nat) (rest : Bytes) (h : NonDigitHead rest) :
    parseJValue (fuel + 1) (renderJValue (.jnum n) ++ rest) = some (.jnum n, rest) := by
  have hmain := parseJNum_renderNat n rest h
  rcases hds : natDecDigits n with _ | ⟨d, ds⟩
  · exact absurd hds (natDecDigits_ne_nil n)
  · have hd : d < 10 := natDecDigits_lt n d (by rw [hds]; simp)
    have hshape : renderJValue (.jnum n) ++ rest
        = (48 + d) :: (ds.map (fun x => 48 + x) ++ rest) := by
      simp [renderJValue, renderNat, hds]
    have hshape2 : renderNat n ++ rest = (48 + d) :: (ds.map (fun x => 48 + x) ++ rest) := by
      simp [renderNat, hds]
    rw [hshape2] at hmain
    rw [hshape, parseJValue.eq_def]
    have hw : isWsByte (48 + d) = false := by simp [isWsByte]; omega
    have e1 : ¬(48 + d = 34) := by omega
    have e2 : ¬(48 + d = 91) := by omega
    have e3 : ¬(48 + d = 123) := by omega
    have e4 : ¬(48 + d = 110) := by omega
    have e5 : ¬(48 + d = 116) := by omega
    have e6 : ¬(48 + d = 102) := by omega
    have e7 : isDigitByte (48 + d) = true := by simp [isDigitByte]; omega
    simp [skipWs, hw, e1, e2, e3, e4, e5, e6, e7, pmap, hmain]

theorem parseJValue_null (fuel : Nat) (rest : Bytes) :
    parseJValue (fuel + 1) (renderJValue .jnull ++ rest) = some (.jnull, rest) := by
  have h0 : renderJValue .jnull = [110, 117, 108, 108] := by
    simp only [renderJValue]; decide
  rw [h0, parseJValue.eq_def]
  simp [skipWs, isWsByte]

/-- A member list whose rendered values all parse back (at fuel at least
F) parses back as a whole, with fuel for the spine on top of F. -/
theorem parseObjMembersP_render (F : Nat) (kvs : List (ByteStr × JValue))
    (H : ∀ kv ∈ kvs, ∀ fuel rest, F ≤ fuel → NonDigitHead rest →
        parseJValue fuel (renderJValue kv.2 ++ rest) = some (kv.2, rest)) :
    kvs ≠ [] → ∀ fuel rest, F + kvs.length ≤ fuel →
      parseObjMembersP fuel (renderObjMembers kvs ++ rest) = some (kvs, rest) := by
  induction kvs with
  | nil => intro hne; exact absurd rfl hne
  | cons kv kvs ih =>
    intro _ fuel rest hf
    have hflen : F + (kvs.length + 1) ≤ fuel := by
      simpa [List.length_cons] using hf
    obtain ⟨g, rfl⟩ : ∃ g, fuel = g + 1 := ⟨fuel - 1, by omega⟩
    have hFg : F ≤ g := by omega
    obtain ⟨k, v⟩ := kv
    cases kvs with
    | nil =>
      have hshape : renderObjMembers [(k, v)] ++ rest
          = 0x22 :: (escapeStr k ++ (0x22 :: (0x3A :: (renderJValue v ++ (0x7D :: rest))))) := by
        simp [renderObjMembers, renderMember]
      have hv := H (k, v) (by simp) g (0x7D :: rest) hFg
        (by intro b hb; simp at hb; subst hb; decide)
      rw [hshape, parseObjMembersP.eq_def]
      simp [skipWs, isWsByte, parseJString_escape, pmap, hv]
    | cons kv2 kvs2 =>
      have hshape : renderObjMembers ((k, v) :: kv2 :: kvs2) ++ rest
          = 0x22 :: (escapeStr k ++ (0x22 :: (0x3A :: (renderJValue v
              ++ (0x2C :: (renderObjMembers (kv2 :: kvs2) ++ rest)))))) := by
        simp [renderObjMembers, renderMember]
      have hv := H (k, v) (by simp) g (0x2C :: (renderObjMembers (kv2 :: kvs2) ++ rest))
        hFg (by intro b hb; simp at hb; subst hb; decide)
      have hrec := ih (fun kv hm => H kv (by simp [hm])) (by simp) g rest
        (by simp only [List.length_cons] at hflen ⊢; omega)
      rw [hshape, parseObjMembersP.eq_def]
      simp [skipWs, isWsByte, parseJString_escape, pmap, hv, hrec]

/-- renderObjMembers of a nonempty list starts with the opening quote of
its first key. -/
theorem renderObjMembers_head (kv : ByteStr × JValue) (kvs : List (ByteStr × JValue)) :
    ∃ t, renderObjMembers (kv :: kvs) = 0x22 :: t := by
  obtain ⟨k, v⟩ := kv
  cases kvs with
  | nil =>
    exact ⟨escapeStr k ++ (0x22 :: (0x3A :: (renderJValue v ++ [0x7D]))),
      by simp [renderObjMembers, renderMember]⟩
  | cons kv2 kvs2 =>
    exact ⟨escapeStr k ++ (0x22 :: (0x3A :: (renderJValue v
        ++ (0x2C :: renderObjMembers (kv2 :: kvs2))))),
      by simp [renderObjMembers, renderMember]⟩

/-- A rendered nonempty JSON object parses back to itself. -/
theorem parseJValue_obj (F : Nat) (kvs : List (ByteStr × JValue))
    (H : ∀ kv ∈ kvs, ∀ fuel rest, F ≤ fuel → NonDigitHead rest →
        parseJValue fuel (renderJValue kv.2 ++ rest) = some (kv.2, rest))
    (hne : kvs ≠ []) :
    ∀ fuel rest, F + kvs.length + 1 ≤ fuel →
      parseJValue fuel (renderJValue (.jobj kvs) ++ rest) = some (.jobj kvs, rest) := by
  intro fuel rest hf
  obtain ⟨kv, kvs2, rfl⟩ : ∃ a l, kvs = a :: l := by
    cases kvs with
    | nil => exact absurd rfl hne
    | cons a l => exact ⟨a, l, rfl⟩
  have hflen : F + (kvs2.length + 1) + 1 ≤ fuel := by
    simpa [List.length_cons] using hf
  obtain ⟨g, rfl⟩ : ∃ g, fuel = g + 1 := ⟨fuel - 1, by omega⟩
  obtain ⟨t, ht⟩ := renderObjMembers_head kv kvs2
  have hshape : renderJValue (.jobj (kv :: kvs2)) ++ rest
      = 0x7B :: (renderObjMembers (kv :: kvs2) ++ rest) := by
    simp [renderJValue]
  have hmem := parseObjMembersP_render F (kv :: kvs2) H (by simp) g rest
    (by simp only [List.length_cons]; omega)
  have hmem2 : parseObjMembersP g (0x22 :: (t ++ rest)) = some (kv :: kvs2, rest) := by
    rw [← List.cons_append, ← ht]; exact hmem
  rw [hshape, parseJValue.eq_def]
  simp [skipWs, isWsByte, ht, pmap, hmem2]


/-! ## UTF-8 validity is closed under the operations the serializer uses -/

theorem utf8Valid_append : ∀ (a b : Bytes), utf8Valid a = true → utf8Valid b = true →
    utf8Valid (a ++ b) = true := by
  intro a
  induction a using utf8Valid.induct with
  | case1 => intro xb _ hb; simpa
  | case2 b0 rest h ih =>
    intro xb ha hb
    rw [utf8Valid.eq_def] at ha
    simp only [List.cons_append]
    rw [utf8Valid.eq_def]
    simp only [if_pos h] at ha ⊢
    exact ih xb ha hb
  | case3 b0 h1 c1 r h2 ih =>
    intro xb ha hb
    rw [utf8Valid.eq_def] at ha
    simp only [List.cons_append]
    rw [utf8Valid.eq_def]
    simp only [if_neg h1, if_pos h2, Bool.and_eq_true] at ha ⊢
    exact ⟨ha.1, ih xb ha.2 hb⟩
  | case4 b0 h1 c1 h2 c2 r h3 ih =>
    intro xb ha hb
    rw [utf8Valid.eq_def] at ha
    simp only [List.cons_append]
    rw [utf8Valid.eq_def]
    simp only [if_neg h1, if_neg h2, if_pos h3, Bool.and_eq_true] at ha ⊢
    exact ⟨ha.1, ih xb ha.2 hb⟩
  | case5 b0 h1 c1 h2 c2 h3 c3 r h4 ih =>
    intro xb ha hb
    rw [utf8Valid.eq_def] at ha
    simp only [List.cons_append]
    rw [utf8Valid.eq_def]
    simp only [if_neg h1, if_neg h2, if_neg h3, if_pos h4, Bool.and_eq_true] at ha ⊢
    exact ⟨ha.1, ih xb ha.2 hb⟩
  | case6 b0 h1 c1 h2 c2 h3 c3 r h4 =>
    intro xb ha hb
    exfalso
    rw [utf8Valid.eq_def] at ha
    simp only [if_neg h1, if_neg h2, if_neg h3, if_neg h4] at ha
    simp at ha
  | case7 b0 h1 c1 h2 c2 h3 =>
    intro xb ha hb
    exfalso
    rw [utf8Valid.eq_def] at ha
    simp only [if_neg h1, if_neg h2, if_neg h3] at ha
    simp at ha
  | case8 b0 h1 c1 h2 =>
    intro xb ha hb
    exfalso
    rw [utf8Valid.eq_def] at ha
    simp only [if_neg h1, if_neg h2] at ha
    simp at ha
  | case9 b0 h1 =>
    intro xb ha hb
    exfalso
    rw [utf8Valid.eq_def] at ha
    simp only [if_neg h1] at ha
    simp at ha


theorem utf8Valid_cons_ascii (b : Nat) (t : Bytes) (hb : b < 0x80)
    (ht : utf8Valid t = true) : utf8Valid (b :: t) = true := by
  rw [utf8Valid.eq_def]
  simp [if_pos hb, ht]

theorem utf8Valid_ascii : ∀ l : Bytes, (∀ b ∈ l, b < 0x80) → utf8Valid l = true := by
  intro l
  induction l with
  | nil => intro _; rfl
  | cons b t ih =>
    intro h
    exact utf8Valid_cons_ascii b t (h b (by simp)) (ih (fun x hx => h x (by simp [hx])))

theorem escapeByte_ascii (b : Nat) (h : b < 0x80) : ∀ x ∈ escapeByte b, x < 0x80 := by
  intro x hx
  unfold escapeByte at hx
  have hd : hexDigitByte (b / 16) < 0x80 := by unfold hexDigitByte; split <;> omega
  have hm : hexDigitByte (b % 16) < 0x80 := by unfold hexDigitByte; split <;> omega
  split_ifs at hx <;> simp_all <;> omega

theorem escapeByte_hi (b : Nat) (h : 0x80 ≤ b) : escapeByte b = [b] := by
  unfold escapeByte
  repeat rw [if_neg (by omega)]

theorem isCont_ge (c : Nat) (h : isCont c = true) : 0x80 ≤ c := by
  simp [isCont] at h; omega

theorem utf8Lead3Ok_ge (b c : Nat) (h : utf8Lead3Ok b c = true) : 0x80 ≤ c := by
  unfold utf8Lead3Ok at h
  split_ifs at h <;> simp [isCont] at h <;> omega

theorem utf8Lead4Ok_ge (b c : Nat) (h : utf8Lead4Ok b c = true) : 0x80 ≤ c := by
  unfold utf8Lead4Ok at h
  split_ifs at h <;> simp [isCont] at h <;> omega

theorem utf8Valid_escapeStr : ∀ s : ByteStr, utf8Valid s = true →
    utf8Valid (escapeStr s) = true := by
  intro s
  induction s using utf8Valid.induct with
  | case1 => intro _; rfl
  | case2 b0 rest h ih =>
    intro ha
    rw [utf8Valid.eq_def] at ha
    simp only [if_pos h] at ha
    show utf8Valid (escapeByte b0 ++ escapeStr rest) = true
    exact utf8Valid_append _ _ (utf8Valid_ascii _ (escapeByte_ascii b0 h)) (ih ha)
  | case3 b0 h1 c1 r h2 ih =>
    intro ha
    rw [utf8Valid.eq_def] at ha
    simp only [if_neg h1, if_pos h2, Bool.and_eq_true] at ha
    have hc1 : escapeByte c1 = [c1] := escapeByte_hi c1 (isCont_ge c1 ha.1)
    have hb0 : escapeByte b0 = [b0] := escapeByte_hi b0 (by omega)
    show utf8Valid (escapeByte b0 ++ (escapeByte c1 ++ escapeStr r)) = true
    rw [hb0, hc1]
    simp only [List.cons_append, List.nil_append]
    rw [utf8Valid.eq_def]
    simp only [if_neg h1, if_pos h2, Bool.and_eq_true]
    exact ⟨ha.1, ih ha.2⟩
  | case4 b0 h1 c1 h2 c2 r h3 ih =>
    intro ha
    rw [utf8Valid.eq_def] at ha
    simp only [if_neg h1, if_neg h2, if_pos h3, Bool.and_eq_true] at ha
    have hc1 : escapeByte c1 = [c1] := escapeByte_hi c1 (utf8Lead3Ok_ge b0 c1 ha.1.1)
    have hc2 : escapeByte c2 = [c2] := escapeByte_hi c2 (isCont_ge c2 ha.1.2)
    have hb0 : escapeByte b0 = [b0] := escapeByte_hi b0 (by omega)
    show utf8Valid (escapeByte b0 ++ (escapeByte c1 ++ (escapeByte c2 ++ escapeStr r))) = true
    rw [hb0, hc1, hc2]
    simp only [List.cons_append, List.nil_append]
    rw [utf8Valid.eq_def]
    simp only [if_neg h1, if_neg h2, if_pos h3, Bool.and_eq_true]
    exact ⟨ha.1, ih ha.2⟩
  | case5 b0 h1 c1 h2 c2 h3 c3 r h4 ih =>
    intro ha
    rw [utf8Valid.eq_def] at ha
    simp only [if_neg h1, if_neg h2, if_neg h3, if_pos h4, Bool.and_eq_true] at ha
    have hc1 : escapeByte c1 = [c1] := escapeByte_hi c1 (utf8Lead4Ok_ge b0 c1 ha.1.1.1)
    have hc2 : escapeByte c2 = [c2] := escapeByte_hi c2 (isCont_ge c2 ha.1.1.2)
    have hc3 : escapeByte c3 = [c3] := escapeByte_hi c3 (isCont_ge c3 ha.1.2)
    have hb0 : escapeByte b0 = [b0] := escapeByte_hi b0 (by omega)
    show utf8Valid (escapeByte b0 ++ (escapeByte c1 ++ (escapeByte c2
        ++ (escapeByte c3 ++ escapeStr r)))) = true
    rw [hb0, hc1, hc2, hc3]
    simp only [List.cons_append, List.nil_append]
    rw [utf8Valid.eq_def]
    simp only [if_neg h1, if_neg h2, if_neg h3, if_pos h4, Bool.and_eq_true]
    exact ⟨ha.1, ih ha.2⟩
  | case6 b0 h1 c1 h2 c2 h3 c3 r h4 =>
    intro ha
    exfalso
    rw [utf8Valid.eq_def] at ha
    simp only [if_neg h1, if_neg h2, if_neg h3, if_neg h4] at ha
    simp at ha
  | case7 b0 h1 c1 h2 c2 h3 =>
    intro ha
    exfalso
    rw [utf8Valid.eq_def] at ha
    simp only [if_neg h1, if_neg h2, if_neg h3] at ha
    simp at ha
  | case8 b0 h1 c1 h2 =>
    intro ha
    exfalso
    rw [utf8Valid.eq_def] at ha
    simp only [if_neg h1, if_neg h2] at ha
    simp at ha
  | case9 b0 h1 =>
    intro ha
    exfalso
    rw [utf8Valid.eq_def] at ha
    simp only [if_neg h1] at ha
    simp at ha


/-! ## The serialized Message is valid UTF-8 -/

theorem utf8Valid_renderStr (s : ByteStr) (h : utf8Valid s = true) :
    utf8Valid (renderJValue (.jstr s)) = true := by
  have hshape : renderJValue (.jstr s) = 0x22 :: (escapeStr s ++ [0x22]) := by
    simp [renderJValue]
  rw [hshape]
  exact utf8Valid_cons_ascii _ _ (by omega)
    (utf8Valid_append _ _ (utf8Valid_escapeStr s h) (by decide))

theorem utf8Valid_renderNum (n : Nat) : utf8Valid (renderJValue (.jnum n)) = true := by
  have hshape : renderJValue (.jnum n) = renderNat n := by simp [renderJValue]
  rw [hshape]
  apply utf8Valid_ascii
  intro b hb
  simp [renderNat] at hb
  obtain ⟨d, hd, rfl⟩ := hb
  have := natDecDigits_lt n d hd
  omega

theorem utf8Valid_renderNull : utf8Valid (renderJValue .jnull) = true := by
  have hshape : renderJValue .jnull = [110, 117, 108, 108] := by
    simp only [renderJValue]; decide
  rw [hshape]; decide

theorem utf8Valid_renderOptStr (o : Option ByteStr) (h : validStrOpt o = true) :
    utf8Valid (renderJValue (jsonOfOptStr o)) = true := by
  cases o with
  | none => exact utf8Valid_renderNull
  | some s => exact utf8Valid_renderStr s (by simpa [validStrOpt] using h)

theorem utf8Valid_renderMember_append (k : ByteStr) (v : JValue) (t : Bytes)
    (hk : utf8Valid (escapeStr k) = true) (hv : utf8Valid (renderJValue v) = true)
    (ht : utf8Valid t = true) : utf8Valid (renderMember (k, v) ++ t) = true := by
  have hshape : renderMember (k, v) ++ t
      = 0x22 :: (escapeStr k ++ (0x22 :: (0x3A :: (renderJValue v ++ t)))) := by
    simp [renderMember]
  rw [hshape]
  apply utf8Valid_cons_ascii _ _ (by omega)
  apply utf8Valid_append _ _ hk
  apply utf8Valid_cons_ascii _ _ (by omega)
  apply utf8Valid_cons_ascii _ _ (by omega)
  exact utf8Valid_append _ _ hv ht

theorem utf8Valid_renderObjMembers_append (kvs : List (ByteStr × JValue)) (t : Bytes)
    (H : ∀ kv ∈ kvs, utf8Valid (escapeStr kv.1) = true ∧ utf8Valid (renderJValue kv.2) = true)
    (ht : utf8Valid t = true) : utf8Valid (renderObjMembers kvs ++ t) = true := by
  induction kvs with
  | nil =>
    have hshape : renderObjMembers [] ++ t = 0x7D :: t := by simp [renderObjMembers]
    rw [hshape]
    exact utf8Valid_cons_ascii _ _ (by omega) ht
  | cons kv kvs ih =>
    obtain ⟨k, v⟩ := kv
    cases kvs with
    | nil =>
      have hshape : renderObjMembers [(k, v)] ++ t = renderMember (k, v) ++ (0x7D :: t) := by
        simp [renderObjMembers]
      rw [hshape]
      exact utf8Valid_renderMember_append k v _ (H (k, v) (by simp)).1 (H (k, v) (by simp)).2
        (utf8Valid_cons_ascii _ _ (by omega) ht)
    | cons kv2 kvs2 =>
      have hshape : renderObjMembers ((k, v) :: kv2 :: kvs2) ++ t
          = renderMember (k, v) ++ (0x2C :: (renderObjMembers (kv2 :: kvs2) ++ t)) := by
        simp [renderObjMembers]
      rw [hshape]
      exact utf8Valid_renderMember_append k v _ (H (k, v) (by simp)).1 (H (k, v) (by simp)).2
        (utf8Valid_cons_ascii _ _ (by omega) (ih (fun kv hm => H kv (by simp [hm]))))

theorem utf8Valid_renderObj (kvs : List (ByteStr × JValue))
    (H : ∀ kv ∈ kvs, utf8Valid (escapeStr kv.1) = true ∧ utf8Valid (renderJValue kv.2) = true) :
    utf8Valid (renderJValue (.jobj kvs)) = true := by
  have hshape : renderJValue (.jobj kvs) = 0x7B :: (renderObjMembers kvs ++ []) := by
    simp [renderJValue]
  rw [hshape]
  exact utf8Valid_cons_ascii _ _ (by omega)
    (utf8Valid_renderObjMembers_append kvs [] H rfl)

theorem utf8Valid_msgTypeTag (mt : MessageType) : utf8Valid (msgTypeTag mt) = true := by
  cases mt <;> decide

theorem utf8Valid_sourceTag (src : MessageSource) : utf8Valid (sourceTag src) = true := by
  cases src <;> decide

theorem utf8Valid_renderTimestamp (t : SystemTime) :
    utf8Valid (renderJValue (jsonOfSystemTime t)) = true := by
  apply utf8Valid_renderObj
  intro kv hkv
  simp [jsonOfSystemTime] at hkv
  rcases hkv with rfl | rfl
  · refine ⟨?_, utf8Valid_renderNum _⟩
    show utf8Valid (escapeStr (asciiBytes "secs_since_epoch")) = true; decide
  · refine ⟨?_, utf8Valid_renderNum _⟩
    show utf8Valid (escapeStr (asciiBytes "nanos_since_epoch")) = true; decide

theorem utf8Valid_renderMessage (m : Message) (h : validMessage m) :
    utf8Valid (renderJValue (jsonOfMessage m)) = true := by
  obtain ⟨h1, h2, h3, h4, h5, h6, h7⟩ := h
  apply utf8Valid_renderObj
  intro kv hkv
  simp [jsonOfMessage] at hkv
  rcases hkv with rfl | rfl | rfl | rfl | rfl | rfl | rfl | rfl
  · refine ⟨?_, utf8Valid_renderStr _ (utf8Valid_msgTypeTag m.msg_type)⟩
    show utf8Valid (escapeStr (asciiBytes "msg_type")) = true; decide
  · refine ⟨?_, utf8Valid_renderStr _ h1⟩
    show utf8Valid (escapeStr (asciiBytes "sender_id")) = true; decide
  · refine ⟨?_, utf8Valid_renderOptStr _ h2⟩
    show utf8Valid (escapeStr (asciiBytes "target_id")) = true; decide
  · refine ⟨?_, utf8Valid_renderOptStr _ h3⟩
    show utf8Valid (escapeStr (asciiBytes "content")) = true; decide
  · refine ⟨?_, utf8Valid_renderStr _ h4⟩
    show utf8Valid (escapeStr (asciiBytes "sender_peer_address")) = true; decide
  · refine ⟨?_, utf8Valid_renderNum _⟩
    show utf8Valid (escapeStr (asciiBytes "sender_listen_port")) = true; decide
  · refine ⟨?_, utf8Valid_renderTimestamp m.timestamp⟩
    show utf8Valid (escapeStr (asciiBytes "timestamp")) = true; decide
  · refine ⟨?_, utf8Valid_renderStr _ (utf8Valid_sourceTag m.source)⟩
    show utf8Valid (escapeStr (asciiBytes "source")) = true; decide


/-! ## The rendered Message document parses back to itself -/

theorem parseJValue_optStr (o : Option ByteStr) (fuel : Nat) (rest : Bytes) (hf : 1 ≤ fuel) :
    parseJValue fuel (renderJValue (jsonOfOptStr o) ++ rest) = some (jsonOfOptStr o, rest) := by
  obtain ⟨g, rfl⟩ : ∃ g, fuel = g + 1 := ⟨fuel - 1, by omega⟩
  cases o with
  | none => exact parseJValue_null g rest
  | some s => exact parseJValue_str g s rest

theorem parseJValue_timestamp (t : SystemTime) (fuel : Nat) (rest : Bytes) (hf : 4 ≤ fuel) :
    parseJValue fuel (renderJValue (jsonOfSystemTime t) ++ rest)
      = some (jsonOfSystemTime t, rest) := by
  simp only [jsonOfSystemTime]
  refine parseJValue_obj 1 _ ?_ (by simp) fuel rest (by simp; omega)
  intro kv hkv fuel2 rest2 hf2 hnd
  obtain ⟨g, rfl⟩ : ∃ g, fuel2 = g + 1 := ⟨fuel2 - 1, by omega⟩
  simp at hkv
  rcases hkv with rfl | rfl
  · exact parseJValue_num g _ rest2 hnd
  · exact parseJValue_num g _ rest2 hnd

theorem parseJValue_message (m : Message) (fuel : Nat) (rest : Bytes) (hf : 13 ≤ fuel)
    (hnd : NonDigitHead rest) :
    parseJValue fuel (renderJValue (jsonOfMessage m) ++ rest)
      = some (jsonOfMessage m, rest) := by
  simp only [jsonOfMessage]
  refine parseJValue_obj 4 _ ?_ (by simp) fuel rest (by simp; omega)
  intro kv hkv fuel2 rest2 hf2 hnd2
  simp at hkv
  rcases hkv with rfl | rfl | rfl | rfl | rfl | rfl | rfl | rfl
  · obtain ⟨g, rfl⟩ : ∃ g, fuel2 = g + 1 := ⟨fuel2 - 1, by omega⟩
    exact parseJValue_str g _ rest2
  · obtain ⟨g, rfl⟩ : ∃ g, fuel2 = g + 1 := ⟨fuel2 - 1, by omega⟩
    exact parseJValue_str g _ rest2
  · exact parseJValue_optStr _ fuel2 rest2 (by omega)
  · exact parseJValue_optStr _ fuel2 rest2 (by omega)
  · obtain ⟨g, rfl⟩ : ∃ g, fuel2 = g + 1 := ⟨fuel2 - 1, by omega⟩
    exact parseJValue_str g _ rest2
  · obtain ⟨g, rfl⟩ : ∃ g, fuel2 = g + 1 := ⟨fuel2 - 1, by omega⟩
    exact parseJValue_num g _ rest2 hnd2
  · exact parseJValue_timestamp m.timestamp fuel2 rest2 hf2
  · obtain ⟨g, rfl⟩ : ∃ g, fuel2 = g + 1 := ⟨fuel2 - 1, by omega⟩
    exact parseJValue_str g _ rest2

theorem renderObj_cons2_length (k : ByteStr) (v : JValue) (kv2 : ByteStr × JValue)
    (kvs : List (ByteStr × JValue)) :
    (escapeStr k).length + 5 ≤ (renderJValue (.jobj ((k, v) :: kv2 :: kvs))).length := by
  simp [renderJValue, renderObjMembers, renderMember, List.length_append]
  omega

theorem renderMessage_length (m : Message) : 12 ≤ (renderJValue (jsonOfMessage m)).length := by
  have hk : (escapeStr (asciiBytes "msg_type")).length = 8 := by decide
  have h := renderObj_cons2_length (asciiBytes "msg_type") (.jstr (msgTypeTag m.msg_type))
    (asciiBytes "sender_id", .jstr m.sender_id)
    [(asciiBytes "target_id", jsonOfOptStr m.target_id),
     (asciiBytes "content", jsonOfOptStr m.content),
     (asciiBytes "sender_peer_address", .jstr m.sender_peer_address),
     (asciiBytes "sender_listen_port", .jnum m.sender_listen_port),
     (asciiBytes "timestamp", jsonOfSystemTime m.timestamp),
     (asciiBytes "source", .jstr (sourceTag m.source))]
  rw [hk] at h
  exact le_trans (by omega) h

theorem msgTypeFromTag_tag (mt : MessageType) : msgTypeFromTag (msgTypeTag mt) = some mt := by
  cases mt <;> decide

theorem sourceFromTag_tag (s : MessageSource) : sourceFromTag (sourceTag s) = some s := by
  cases s <;> decide

theorem fromJson_jsonOfMessage (m : Message) (h : validMessage m) :
    fromJsonMessage (jsonOfMessage m) = some m := by
  obtain ⟨mt, sid, tid, cont, addr, port, ts, src⟩ := m
  obtain ⟨secs, nanos⟩ := ts
  obtain ⟨h1, h2, h3, h4, h5, h6, h7⟩ := h
  simp only [validMessage] at *
  have hn0 : nanos / 1000000000 = 0 := Nat.div_eq_of_lt h7
  have hnm : nanos % 1000000000 = nanos := Nat.mod_eq_of_lt h7
  have h5b : port < 65536 := by omega
  have h6b : secs < 18446744073709551616 := by omega
  have h7b : nanos < 4294967296 := by omega
  have hcar : secs + nanos / 1000000000 < 18446744073709551616 := by omega
  cases tid with
  | none =>
    cases cont with
    | none =>
      simp [fromJsonMessage, jsonOfMessage, jsonOfOptStr, jsonOfSystemTime, jLookup, reqStr,
        optStrField, reqNumLt, fromJsonSystemTime, asciiBytes, msgTypeFromTag_tag,
        sourceFromTag_tag, h5b, h6b, h7b, hcar, hn0, hnm]
    | some c =>
      simp [fromJsonMessage, jsonOfMessage, jsonOfOptStr, jsonOfSystemTime, jLookup, reqStr,
        optStrField, reqNumLt, fromJsonSystemTime, asciiBytes, msgTypeFromTag_tag,
        sourceFromTag_tag, h5b, h6b, h7b, hcar, hn0, hnm]
  | some t =>
    cases cont with
    | none =>
      simp [fromJsonMessage, jsonOfMessage, jsonOfOptStr, jsonOfSystemTime, jLookup, reqStr,
        optStrField, reqNumLt, fromJsonSystemTime, asciiBytes, msgTypeFromTag_tag,
        sourceFromTag_tag, h5b, h6b, h7b, hcar, hn0, hnm]
    | some c =>
      simp [fromJsonMessage, jsonOfMessage, jsonOfOptStr, jsonOfSystemTime, jLookup, reqStr,
        optStrField, reqNumLt, fromJsonSystemTime, asciiBytes, msgTypeFromTag_tag,
        sourceFromTag_tag, h5b, h6b, h7b, hcar, hn0, hnm]


/-! ## Claim C1 and C10: wire codec round trip and totality -/

/-- C1: for every valid Message value m, serializing m with
serialize_message (which appends a single newline delimiter) and then
deserializing the frame with the delimiter stripped via
deserialize_message yields a message equal to m. -/
theorem serialize_message_roundtrip (m : Message) (h : validMessage m) :
    deserialize_message ((serialize_message m).dropLast) = Except.ok m := by
  have hdrop : (serialize_message m).dropLast = renderJValue (jsonOfMessage m) := by
    simp [serialize_message]
  rw [hdrop]
  unfold deserialize_message
  rw [if_pos (utf8Valid_renderMessage m h)]
  have hlen := renderMessage_length m
  have hparse := parseJValue_message m ((renderJValue (jsonOfMessage m)).length + 1)
    [] (by omega) (by intro b hb; simp at hb)
  rw [List.append_nil] at hparse
  rw [hparse]
  simp [skipWs, fromJson_jsonOfMessage m h]

/-- A concrete well-formed message exercising both optional fields, a
multi-byte UTF-8 content byte sequence and characters the serializer
must escape. -/
def exampleMessage : Message :=
  { msg_type := .Chat
    sender_id := asciiBytes "alice"
    target_id := some (asciiBytes "bob")
    content := some [104, 105, 10, 34, 228, 189, 160]
    sender_peer_address := asciiBytes "127.0.0.1"
    sender_listen_port := 9101
    timestamp := ⟨1700000000, 123456789⟩
    source := .Peer }

theorem serialize_message_roundtrip_witness :
    validMessage exampleMessage ∧
      deserialize_message ((serialize_message exampleMessage).dropLast)
        = Except.ok exampleMessage :=
  ⟨by decide, serialize_message_roundtrip exampleMessage (by decide)⟩

/-- C10: deserialize_message is total: every byte sequence yields either
Ok with a Message or Err with P2PError::SerializationError (never a
panic and never another error kind); in particular the non-UTF-8 input
[0xFF] yields SerializationError. -/
theorem deserialize_message_total :
    (∀ data : Bytes, (∃ m, deserialize_message data = Except.ok m) ∨
        deserialize_message data = Except.error P2PError.serializationError) ∧
      deserialize_message [255] = Except.error P2PError.serializationError := by
  constructor
  · intro data
    unfold deserialize_message
    by_cases h : utf8Valid data = true
    · rw [if_pos h]
      rcases parseJValue (data.length + 1) data with _ | ⟨v, rest⟩
      · right; rfl
      · by_cases hw : skipWs rest = []
        · rcases hm : fromJsonMessage v with _ | mm
          · right; simp [hw, hm]
          · left; exact ⟨mm, by simp [hw, hm]⟩
        · right; simp [hw]
    · rw [if_neg h]; right; rfl
  · rfl


/-! ## Claim C2: inbound buffer frame extraction
(try_parse_messages in server.rs:181-209 and client.rs:528-553; the two
loops share the same buffer logic — find the first newline, drain the
bytes through it, strip the delimiter, deserialize, discard frames that
fail to parse — differing only in the client's source tagging, which
does not touch the buffer). -/

/-- A byte that is not the b'\n' frame delimiter. -/
def nonDelim (b : Nat) : Bool := b != 10

theorem nonDelim_true (b : Nat) (h : b ≠ 10) : nonDelim b = true := by
  simp [nonDelim]; exact h

theorem nonDelim_lf : nonDelim 10 = false := rfl

/-- Decomposition of a buffer at its first delimiter: the scan prefix,
the delimiter, and the strictly shorter tail. -/
theorem first_delim_split : ∀ (l : Bytes), 10 ∈ l →
    l.takeWhile nonDelim ++ 10 :: (l.dropWhile nonDelim).tail = l ∧
    (∀ y ∈ l.takeWhile nonDelim, y ≠ 10) ∧
    (l.dropWhile nonDelim).tail.length < l.length := by
  intro l
  induction l with
  | nil => intro h; simp at h
  | cons y l ih =>
    intro hmem
    by_cases hy : y = 10
    · subst hy
      refine ⟨?_, ?_, ?_⟩
      · simp [List.takeWhile_cons, List.dropWhile_cons, nonDelim]
      · intro z hz
        simp [List.takeWhile_cons, nonDelim] at hz
      · simp [List.dropWhile_cons, nonDelim]
    · have hmem2 : 10 ∈ l := by
        rcases List.mem_cons.mp hmem with h | h
        · exact absurd h.symm hy
        · exact h
      have hrec := ih hmem2
      have hnd : nonDelim y = true := nonDelim_true y hy
      refine ⟨?_, ?_, ?_⟩
      · simp only [List.takeWhile_cons, List.dropWhile_cons, hnd, if_true, List.cons_append]
        rw [hrec.1]
      · intro z hz
        simp only [List.takeWhile_cons, hnd, if_true] at hz
        rcases List.mem_cons.mp hz with rfl | hz
        · exact hy
        · exact hrec.2.1 z hz
      · simp only [List.dropWhile_cons, hnd, if_true, List.length_cons]
        have := hrec.2.2
        omega

/-- The buffer loop of try_parse_messages: splits the accumulated bytes
into the delimiter-terminated frames (in order, delimiters stripped) and
the remaining bytes after the last delimiter. -/
def extractFrames (buf : Bytes) : List Bytes × Bytes :=
  if h : 10 ∈ buf then
    let f := buf.takeWhile nonDelim
    let rest := (buf.dropWhile nonDelim).tail
    let p := extractFrames rest
    (f :: p.1, p.2)
  else ([], buf)
  termination_by buf.length
  decreasing_by exact (first_delim_split buf h).2.2

/-- try_parse_messages viewed as a buffer transformer: the messages
dispatched (parse failures discarded with a log) and the new buffer. -/
def try_parse_messages (buf : Bytes) : List Message × Bytes :=
  let p := extractFrames buf
  (p.1.filterMap (fun f => (deserialize_message f).toOption), p.2)

theorem takeWhile_append_stop {p : Nat → Bool} : ∀ (a : Bytes) (x : Nat) (b : Bytes),
    (∀ y ∈ a, p y = true) → p x = false →
    (a ++ x :: b).takeWhile p = a ∧ (a ++ x :: b).dropWhile p = x :: b := by
  intro a
  induction a with
  | nil =>
    intro x b _ hx
    simp [List.takeWhile_cons, List.dropWhile_cons, hx]
  | cons y a ih =>
    intro x b hall hx
    have hy : p y = true := hall y (by simp)
    have hrec := ih x b (fun z hz => hall z (by simp [hz])) hx
    simp [List.takeWhile_cons, List.dropWhile_cons, hy, hrec.1, hrec.2]

theorem extractFrames_no_delim (buf : Bytes) (h : ∀ b ∈ buf, b ≠ 10) :
    extractFrames buf = ([], buf) := by
  rw [extractFrames.eq_def]
  rw [dif_neg (fun hmem => h 10 hmem rfl)]

theorem extractFrames_step (a : Bytes) (x : Bytes) (ha : ∀ y ∈ a, y ≠ 10) :
    extractFrames (a ++ 10 :: x)
      = (a :: (extractFrames x).1, (extractFrames x).2) := by
  have hsplit := takeWhile_append_stop (p := nonDelim) a 10 x
    (fun y hy => nonDelim_true y (ha y hy)) nonDelim_lf
  rw [extractFrames.eq_def]
  rw [dif_pos (by simp : (10 : Nat) ∈ a ++ 10 :: x)]
  simp only [hsplit.1, hsplit.2, List.tail_cons]

/-- Bytes after the last delimiter survive frame extraction verbatim. -/
theorem extractFrames_last_suffix : ∀ (n : Nat) (a b : Bytes), a.length ≤ n →
    (∀ x ∈ b, x ≠ 10) → (extractFrames (a ++ 10 :: b)).2 = b := by
  intro n
  induction n with
  | zero =>
    intro a b hlen hb
    have ha : a = [] := List.length_eq_zero.mp (by omega)
    subst ha
    rw [extractFrames_step [] b (by simp), extractFrames_no_delim b hb]
  | succ n ih =>
    intro a b hlen hb
    by_cases hmem : 10 ∈ a
    · have hsp := first_delim_split a hmem
      have hshape : a ++ 10 :: b
          = a.takeWhile nonDelim ++ 10 :: ((a.dropWhile nonDelim).tail ++ 10 :: b) := by
        conv_lhs => rw [← hsp.1]
        simp [List.append_assoc]
      rw [hshape, extractFrames_step _ _ hsp.2.1]
      have hlen2 : (a.dropWhile nonDelim).tail.length ≤ n := by
        have := hsp.2.2; omega
      exact ih _ b hlen2 hb
    · rw [extractFrames_step a b (fun y hy => fun he => hmem (he ▸ hy)),
        extractFrames_no_delim b hb]

/-- C2: for every inbound accumulation buffer: while it contains no
newline delimiter, try_parse_messages yields no message and leaves the
buffer unchanged; and on any buffer, after extracting all
delimiter-terminated frames, exactly the bytes after the last delimiter
remain for the next read. -/
theorem try_parse_messages_buffering :
    (∀ buf : Bytes, (∀ b ∈ buf, b ≠ 10) → try_parse_messages buf = ([], buf)) ∧
    (∀ a b : Bytes, (∀ x ∈ b, x ≠ 10) →
      (try_parse_messages (a ++ 10 :: b)).2 = b) := by
  constructor
  · intro buf h
    simp [try_parse_messages, extractFrames_no_delim buf h]
  · intro a b hb
    simp [try_parse_messages]
    exact extractFrames_last_suffix a.length a b le_rfl hb

theorem try_parse_messages_buffering_witness :
    (∀ b ∈ [72, 105], b ≠ (10 : Nat)) ∧
      try_parse_messages [72, 105] = ([], [72, 105]) ∧
      (∀ x ∈ [110, 111], x ≠ (10 : Nat)) ∧
      (try_parse_messages ([72, 10, 105, 10] ++ 10 :: [110, 111])).2 = [110, 111] := by
  refine ⟨by decide, ?_, by decide, ?_⟩
  · exact try_parse_messages_buffering.1 [72, 105] (by decide)
  · exact try_parse_messages_buffering.2 [72, 10, 105, 10] [110, 111] (by decide)


/-! ## Server state and protocol handlers (src/p2p/src/server.rs)

mio Tokens are Nat; the HashMaps of P2PServer are association lists (the
claims count entries and sends, which HashMap iteration order leaves
unspecified; the list order here is one admissible order).  The protocol
handlers are embedded at the dispatch level: each returns the new server
state and the list of (token, message) pairs it passes to send_message,
with send_message's guard (a send to a token with no registered stream
is silently dropped) included; the socket write and the byte-level
buffering that send_message/handle_writable perform on the single
per-connection buffer are modelled separately below for claim C3. -/

abbrev Token := Nat

/-- common.rs PeerInfo; last_heartbeat is an Instant, modelled in whole
seconds. -/
structure PeerInfo where
  user_id : ByteStr
  address : ByteStr
  port : Nat
  last_heartbeat : Nat
  deriving DecidableEq, Repr

/-- PeerInfo::new: stamps last_heartbeat with Instant::now(). -/
def PeerInfo.new (user_id : ByteStr) (address : ByteStr) (port : Nat) (now : Nat) : PeerInfo :=
  ⟨user_id, address, port, now⟩

/-- Association-list lookup (HashMap::get): first binding of the key. -/
def alLookup {α β : Type} [DecidableEq α] (l : List (α × β)) (k : α) : Option β :=
  (l.find? (fun kv => kv.1 = k)).map (fun kv => kv.2)

/-- Association-list insert (HashMap::insert): replaces any existing
binding of the key. -/
def alInsert {α β : Type} [DecidableEq α] (l : List (α × β)) (k : α) (v : β) :
    List (α × β) :=
  l.filter (fun kv => kv.1 ≠ k) ++ [(k, v)]

/-- Association-list removal (HashMap::remove). -/
def alRemove {α β : Type} [DecidableEq α] (l : List (α × β)) (k : α) : List (α × β) :=
  l.filter (fun kv => kv.1 ≠ k)

def alKeys {α β : Type} (l : List (α × β)) : List α := l.map (fun kv => kv.1)

/-- The server's connection/directory state (struct P2PServer): the
registered sockets, the single per-connection byte buffer map, the
directory keyed by connection token, and the user-to-token map. -/
structure P2PServer where
  streams : List Token
  buffers : List (Token × Bytes)
  peers : List (Token × PeerInfo)
  user_to_token : List (ByteStr × Token)
  deriving Repr

/-- send_message's dispatch guard: streams.get_mut(&token) — a message
to a token with no stream is silently not sent. -/
def dispatchTo (s : P2PServer) (tok : Token) (m : Message) : List (Token × Message) :=
  if tok ∈ s.streams then [(tok, m)] else []

/-- The peer-list tuples send_peer_list collects from the directory. -/
def peerListEntries (s : P2PServer) : List (ByteStr × ByteStr × Nat) :=
  s.peers.map (fun kv => (kv.2.user_id, kv.2.address, kv.2.port))

/-- serde_json::to_vec of the peer list: a JSON array of 3-element
arrays. -/
def peerListJson (s : P2PServer) : JValue :=
  .jarr ((peerListEntries s).map (fun e => .jarr [.jstr e.1, .jstr e.2.1, .jnum e.2.2]))

/-- The PeerList reply message send_peer_list builds. -/
def peer_list_message (s : P2PServer) (ts : SystemTime) : Message :=
  { msg_type := .PeerList
    sender_id := asciiBytes "SERVER"
    target_id := none
    content := some (renderJValue (peerListJson s))
    sender_peer_address := []
    sender_listen_port := 0
    timestamp := ts
    source := default_message_source }

/-- server.rs send_peer_list. -/
def send_peer_list (s : P2PServer) (tok : Token) (ts : SystemTime) : List (Token × Message) :=
  dispatchTo s tok (peer_list_message s ts)

/-- handle_join_message's directory update: store PeerInfo under the
sending token and map user_id to the token. -/
def join_insert (s : P2PServer) (m : Message) (tok : Token) (now : Nat) : P2PServer :=
  { s with peers := alInsert s.peers tok
             (PeerInfo.new m.sender_id m.sender_peer_address m.sender_listen_port now)
           user_to_token := alInsert s.user_to_token m.sender_id tok }

/-- The UserJoined notice handle_join_message broadcasts (user id also
placed in content, as the source comments explain, for the client). -/
def join_notification (m : Message) (ts : SystemTime) : Message :=
  { msg_type := .UserJoined
    sender_id := m.sender_id
    target_id := none
    content := some m.sender_id
    sender_peer_address := m.sender_peer_address
    sender_listen_port := m.sender_listen_port
    timestamp := ts
    source := default_message_source }

/-- server.rs handle_join_message: store PeerInfo under the sending
token, map user_id to the token, broadcast a UserJoined notice to every
other registered connection, and send the joiner the current peer list.
now stamps the directory entry, ts the notification timestamps. -/
def handle_join_message (s : P2PServer) (m : Message) (tok : Token) (now : Nat)
    (ts : SystemTime) : P2PServer × List (Token × Message) :=
  let s1 := join_insert s m tok now
  let recipients := (alKeys s1.peers).filter (fun t => t ≠ tok)
  (s1, recipients.flatMap (fun t => dispatchTo s1 t (join_notification m ts))
        ++ send_peer_list s1 tok ts)

/-- server.rs handle_chat_message: with a target, unicast to that user's
token when mapped (dropped with a log otherwise); without a target,
broadcast to every registered connection. -/
def handle_chat_message (s : P2PServer) (m : Message) : P2PServer × List (Token × Message) :=
  match m.target_id with
  | some target_id =>
    match alLookup s.user_to_token target_id with
    | some tok => (s, dispatchTo s tok m)
    | none => (s, [])
  | none => (s, (alKeys s.peers).flatMap (fun t => dispatchTo s t m))

/-- server.rs handle_connect_request: look the target up in the
directory and reply to the requester with a ConnectResponse carrying the
target's "address,port" in content and the target's id as sender. -/
def handle_connect_request (s : P2PServer) (m : Message) (tok : Token) (ts : SystemTime) :
    P2PServer × List (Token × Message) :=
  match m.target_id with
  | some target_id =>
    match alLookup s.user_to_token target_id with
    | some target_token =>
      match alLookup s.peers target_token with
      | some peer_info =>
        let content := peer_info.address ++ 0x2C :: renderNat peer_info.port
        let connect_response : Message :=
          { msg_type := .ConnectResponse
            sender_id := peer_info.user_id
            target_id := some m.sender_id
            content := some content
            sender_peer_address := peer_info.address
            sender_listen_port := peer_info.port
            timestamp := ts
            source := default_message_source }
        (s, dispatchTo s tok connect_response)
      | none => (s, [])
    | none => (s, [])
  | none => (s, [])

/-- server.rs handle_heartbeat_message: refresh the sender's
last_heartbeat. -/
def handle_heartbeat_message (s : P2PServer) (tok : Token) (now : Nat) : P2PServer :=
  match alLookup s.peers tok with
  | some info =>
    { s with peers := alInsert s.peers tok { info with last_heartbeat := now } }
  | none => s

/-- server.rs remove_peer: drop the directory entry (and, when one
existed, the user-to-token binding for its user id), the stream and the
buffer of the token. -/
def remove_peer (s : P2PServer) (tok : Token) : P2PServer :=
  let s1 :=
    match alLookup s.peers tok with
    | some peer_info =>
      { s with peers := alRemove s.peers tok
               user_to_token := alRemove s.user_to_token peer_info.user_id }
    | none => { s with peers := alRemove s.peers tok }
  { s1 with streams := s1.streams.filter (fun t => t ≠ tok)
            buffers := alRemove s1.buffers tok }

/-- server.rs check_peer_timeouts: collect every token whose entry's
last heartbeat lies more than 60 seconds in the past and remove each;
no message of any kind is emitted. -/
def check_peer_timeouts (s : P2PServer) (now : Nat) : P2PServer × List (Token × Message) :=
  let timeout_tokens :=
    (s.peers.filter (fun kv => now - kv.2.last_heartbeat > 60)).map (fun kv => kv.1)
  (timeout_tokens.foldl (fun st t => remove_peer st t) s, [])


/-! ## Claims C5 and C6: chat routing and connect negotiation -/

theorem alLookup_mem {α β : Type} [DecidableEq α] {l : List (α × β)} {k : α} {v : β}
    (h : alLookup l k = some v) : (k, v) ∈ l := by
  unfold alLookup at h
  cases hf : l.find? (fun kv => decide (kv.1 = k)) with
  | none => rw [hf] at h; simp at h
  | some kv =>
    rw [hf] at h
    simp at h
    have hmem := List.mem_of_find?_eq_some hf
    have hkey := List.find?_some hf
    simp at hkey
    obtain ⟨k0, v0⟩ := kv
    simp at hkey h
    subst hkey
    subst h
    exact hmem

theorem flatMap_dispatch (s : P2PServer) (m : Message) (l : List Token)
    (h : ∀ t ∈ l, t ∈ s.streams) :
    l.flatMap (fun t => dispatchTo s t m) = l.map (fun t => (t, m)) := by
  induction l with
  | nil => rfl
  | cons t l ih =>
    have ht : dispatchTo s t m = [(t, m)] := by simp [dispatchTo, h t (by simp)]
    have hrest := ih (fun x hx => h x (by simp [hx]))
    rw [List.flatMap_cons, ht, hrest, List.map_cons, List.singleton_append]

/-- C5: handle_chat_message leaves the server state unchanged and
routes: with a target mapped to a token, exactly one send to that token;
with an unknown target, no send (dropped with a log, no error to the
sender); without a target, one send to every registered connection — in
particular to the sender's own connection when it is registered. -/
theorem handle_chat_message_routing (s : P2PServer) (m : Message)
    (hpeers : ∀ t ∈ alKeys s.peers, t ∈ s.streams)
    (hmap : ∀ u t, alLookup s.user_to_token u = some t → t ∈ s.streams) :
    (handle_chat_message s m).1 = s ∧
    (∀ T tok, m.target_id = some T → alLookup s.user_to_token T = some tok →
        (handle_chat_message s m).2 = [(tok, m)]) ∧
    (∀ T, m.target_id = some T → alLookup s.user_to_token T = none →
        (handle_chat_message s m).2 = []) ∧
    (m.target_id = none →
      (handle_chat_message s m).2 = (alKeys s.peers).map (fun t => (t, m)) ∧
      (∀ st, alLookup s.user_to_token m.sender_id = some st → st ∈ alKeys s.peers →
          (st, m) ∈ (handle_chat_message s m).2)) := by
  refine ⟨?_, ?_, ?_, ?_⟩
  · cases hmt : m.target_id with
    | none => simp [handle_chat_message, hmt]
    | some T =>
      cases hl : alLookup s.user_to_token T <;> simp [handle_chat_message, hmt, hl]
  · intro T tok hmt hl
    simp [handle_chat_message, hmt, hl, dispatchTo, hmap T tok hl]
  · intro T hmt hl
    simp [handle_chat_message, hmt, hl]
  · intro hmt
    have hsends : (handle_chat_message s m).2 = (alKeys s.peers).map (fun t => (t, m)) := by
      simp [handle_chat_message, hmt, flatMap_dispatch s m (alKeys s.peers) hpeers]
    refine ⟨hsends, ?_⟩
    intro st _ hmem
    rw [hsends]
    exact List.mem_map.mpr ⟨st, hmem, rfl⟩

/-- A two-user server state: alice on token 2, bob on token 3. -/
def exampleServer : P2PServer :=
  { streams := [2, 3]
    buffers := [(2, []), (3, [])]
    peers := [(2, ⟨asciiBytes "alice", asciiBytes "127.0.0.1", 9101, 50⟩),
              (3, ⟨asciiBytes "bob", asciiBytes "127.0.0.1", 9102, 55⟩)]
    user_to_token := [(asciiBytes "alice", 2), (asciiBytes "bob", 3)] }

/-- An untargeted chat from alice. -/
def exampleBroadcastChat : Message :=
  { msg_type := .Chat
    sender_id := asciiBytes "alice"
    target_id := none
    content := some (asciiBytes "hi")
    sender_peer_address := asciiBytes "127.0.0.1"
    sender_listen_port := 0
    timestamp := ⟨1700000000, 0⟩
    source := .Server }

theorem handle_chat_message_routing_witness :
    (∀ t ∈ alKeys exampleServer.peers, t ∈ exampleServer.streams) ∧
    (∀ u t, alLookup exampleServer.user_to_token u = some t → t ∈ exampleServer.streams) ∧
    ((handle_chat_message exampleServer exampleBroadcastChat).1 = exampleServer ∧
      (∀ T tok, exampleBroadcastChat.target_id = some T →
          alLookup exampleServer.user_to_token T = some tok →
          (handle_chat_message exampleServer exampleBroadcastChat).2 = [(tok, exampleBroadcastChat)]) ∧
      (∀ T, exampleBroadcastChat.target_id = some T →
          alLookup exampleServer.user_to_token T = none →
          (handle_chat_message exampleServer exampleBroadcastChat).2 = []) ∧
      (exampleBroadcastChat.target_id = none →
        (handle_chat_message exampleServer exampleBroadcastChat).2
          = (alKeys exampleServer.peers).map (fun t => (t, exampleBroadcastChat)) ∧
        (∀ st, alLookup exampleServer.user_to_token exampleBroadcastChat.sender_id = some st →
            st ∈ alKeys exampleServer.peers →
            (st, exampleBroadcastChat) ∈ (handle_chat_message exampleServer exampleBroadcastChat).2))) := by
  have h1 : ∀ t ∈ alKeys exampleServer.peers, t ∈ exampleServer.streams := by decide
  have h2 : ∀ u t, alLookup exampleServer.user_to_token u = some t →
      t ∈ exampleServer.streams := by
    intro u t hl
    have hmem := alLookup_mem hl
    simp [exampleServer] at hmem
    rcases hmem with ⟨_, rfl⟩ | ⟨_, rfl⟩ <;> decide
  exact ⟨h1, h2, handle_chat_message_routing exampleServer exampleBroadcastChat h1 h2⟩

/-- C6: handle_connect_request leaves the state unchanged; it replies
exactly when the target is registered, and then to the requester with a
single ConnectResponse whose sender is the target's user id and whose
content is the target's address and port joined by a comma. -/
theorem handle_connect_request_reply (s : P2PServer) (m : Message) (tok : Token)
    (ts : SystemTime) (htok : tok ∈ s.streams) :
    (handle_connect_request s m tok ts).1 = s ∧
    (∀ T tt info, m.target_id = some T → alLookup s.user_to_token T = some tt →
        alLookup s.peers tt = some info →
        (handle_connect_request s m tok ts).2
          = [(tok, { msg_type := .ConnectResponse
                     sender_id := info.user_id
                     target_id := some m.sender_id
                     content := some (info.address ++ 0x2C :: renderNat info.port)
                     sender_peer_address := info.address
                     sender_listen_port := info.port
                     timestamp := ts
                     source := default_message_source })]) ∧
    ((¬ ∃ T tt info, m.target_id = some T ∧ alLookup s.user_to_token T = some tt ∧
        alLookup s.peers tt = some info) → (handle_connect_request s m tok ts).2 = []) ∧
    ((handle_connect_request s m tok ts).2 ≠ [] ↔
      ∃ T tt info, m.target_id = some T ∧ alLookup s.user_to_token T = some tt ∧
        alLookup s.peers tt = some info) := by
  have hstate : (handle_connect_request s m tok ts).1 = s := by
    cases hmt : m.target_id with
    | none => simp [handle_connect_request, hmt]
    | some T =>
      cases hl1 : alLookup s.user_to_token T with
      | none => simp [handle_connect_request, hmt, hl1]
      | some tt =>
        cases hl2 : alLookup s.peers tt <;> simp [handle_connect_request, hmt, hl1, hl2]
  have hpos : ∀ T tt info, m.target_id = some T → alLookup s.user_to_token T = some tt →
      alLookup s.peers tt = some info →
      (handle_connect_request s m tok ts).2
        = [(tok, { msg_type := .ConnectResponse
                   sender_id := info.user_id
                   target_id := some m.sender_id
                   content := some (info.address ++ 0x2C :: renderNat info.port)
                   sender_peer_address := info.address
                   sender_listen_port := info.port
                   timestamp := ts
                   source := default_message_source })] := by
    intro T tt info hmt hl1 hl2
    simp [handle_connect_request, hmt, hl1, hl2, dispatchTo, htok]
  have hneg : (¬ ∃ T tt info, m.target_id = some T ∧ alLookup s.user_to_token T = some tt ∧
      alLookup s.peers tt = some info) → (handle_connect_request s m tok ts).2 = [] := by
    intro hne
    cases hmt : m.target_id with
    | none => simp [handle_connect_request, hmt]
    | some T =>
      cases hl1 : alLookup s.user_to_token T with
      | none => simp [handle_connect_request, hmt, hl1]
      | some tt =>
        cases hl2 : alLookup s.peers tt with
        | none => simp [handle_connect_request, hmt, hl1, hl2]
        | some info => exact absurd ⟨T, tt, info, hmt, hl1, hl2⟩ hne
  refine ⟨hstate, hpos, hneg, ?_, ?_⟩
  · intro hne
    by_contra hreg
    exact hne (hneg hreg)
  · rintro ⟨T, tt, info, hmt, hl1, hl2⟩
    rw [hpos T tt info hmt hl1 hl2]
    simp

/-- A ConnectRequest from alice for bob. -/
def exampleConnectRequest : Message :=
  { msg_type := .ConnectRequest
    sender_id := asciiBytes "alice"
    target_id := some (asciiBytes "bob")
    content := none
    sender_peer_address := asciiBytes "127.0.0.1"
    sender_listen_port := 9101
    timestamp := ⟨1700000000, 0⟩
    source := .Server }

theorem handle_connect_request_reply_witness :
    2 ∈ exampleServer.streams ∧
      (handle_connect_request exampleServer exampleConnectRequest 2 ⟨0, 0⟩).1
        = exampleServer :=
  ⟨by decide, (handle_connect_request_reply exampleServer exampleConnectRequest 2 ⟨0, 0⟩
    (by decide)).1⟩


/-! ## Claim C4: Join handling
The claim as stated fails on the code: the directory is keyed by
connection token, so a Join by a user already registered under another
token leaves two directory entries carrying that user id (the
counterexample below).  The amended claim, proved afterwards, adds the
precondition that the joining user is not already registered. -/

/-- A Join from alice advertising her listener. -/
def exampleJoinAlice : Message :=
  { msg_type := .Join
    sender_id := asciiBytes "alice"
    target_id := none
    content := none
    sender_peer_address := asciiBytes "127.0.0.1"
    sender_listen_port := 9105
    timestamp := ⟨1700000300, 0⟩
    source := .Server }

/-- A server that already has alice registered on token 2, with a second
live connection (token 3) from which she joins again. -/
def exampleServerRejoin : P2PServer :=
  { streams := [2, 3]
    buffers := [(2, []), (3, [])]
    peers := [(2, ⟨asciiBytes "alice", asciiBytes "127.0.0.1", 9101, 50⟩)]
    user_to_token := [(asciiBytes "alice", 2)] }

/-- C4 counterexample: after the server processes a Join from alice on
token 3 while she is still registered on token 2, the directory holds
two entries for alice — not exactly one as the claim states. -/
theorem handle_join_message_duplicate_counterexample :
    ((handle_join_message exampleServerRejoin exampleJoinAlice 3 60 ⟨1700000300, 0⟩).1.peers.filter
        (fun kv => kv.2.user_id = asciiBytes "alice")).length = 2 ∧
      ¬ ((handle_join_message exampleServerRejoin exampleJoinAlice 3 60 ⟨1700000300, 0⟩).1.peers.filter
          (fun kv => kv.2.user_id = asciiBytes "alice")).length = 1 := by
  decide

theorem alLookup_alInsert_self {α β : Type} [DecidableEq α] (l : List (α × β)) (k : α) (v : β) :
    alLookup (alInsert l k v) k = some v := by
  unfold alLookup alInsert
  rw [List.find?_append]
  have h1 : (l.filter (fun kv => kv.1 ≠ k)).find? (fun kv => decide (kv.1 = k)) = none := by
    rw [List.find?_eq_none]
    intro kv hkv
    have hne := List.of_mem_filter hkv
    simp at hne ⊢
    exact hne
  rw [h1]
  simp

theorem alKeys_alInsert_nodup {α β : Type} [DecidableEq α] (l : List (α × β)) (k : α) (v : β)
    (h : (alKeys l).Nodup) : (alKeys (alInsert l k v)).Nodup := by
  simp only [alInsert, alKeys, List.map_append, List.map_cons, List.map_nil]
  rw [List.nodup_append]
  refine ⟨?_, by simp, ?_⟩
  · have : (l.filter (fun kv => kv.1 ≠ k)).map (fun kv => kv.1)
        |>.Sublist (l.map (fun kv => kv.1)) := (List.filter_sublist l).map _
    exact h.sublist this
  · intro x hx
    simp only [List.mem_map] at hx
    obtain ⟨kv, hkv, rfl⟩ := hx
    have hne := List.of_mem_filter hkv
    simp at hne ⊢
    exact hne

theorem mem_alKeys_alInsert {α β : Type} [DecidableEq α] {t : α} {l : List (α × β)}
    {k : α} {v : β} (h : t ∈ alKeys (alInsert l k v)) : t ∈ alKeys l ∨ t = k := by
  simp only [alInsert, alKeys, List.map_append, List.mem_append] at h
  rcases h with h | h
  · left
    simp only [alKeys, List.mem_map] at h ⊢
    obtain ⟨kv, hkv, rfl⟩ := h
    exact ⟨kv, List.mem_of_mem_filter hkv, rfl⟩
  · right; simpa using h

theorem filter_eq_singleton_length {t : Token} (l : List Token) (hnd : l.Nodup)
    (hmem : t ∈ l) : (l.filter (fun x => x = t)).length = 1 := by
  induction l with
  | nil => simp at hmem
  | cons a l ih =>
    by_cases ha : a = t
    · subst ha
      have hnotin : a ∉ l := (List.nodup_cons.mp hnd).1
      have hfe : l.filter (fun x => x = a) = [] := by
        rw [List.filter_eq_nil_iff]
        intro x hx
        simp
        intro he
        exact hnotin (he ▸ hx)
      simp [List.filter_cons, hfe]
    · have hm2 : t ∈ l := by
        rcases List.mem_cons.mp hmem with h | h
        · exact absurd h.symm ha
        · exact h
      have := ih (List.nodup_cons.mp hnd).2 hm2
      simp [List.filter_cons, ha, this]


/-- C4 (amended): provided the joining user is not already registered in
the directory under any token, after the server processes the Join on
connection token tok the directory holds exactly one entry for that
user, the user-to-token map sends the user to tok, every other
currently-registered connection is sent exactly one UserJoined naming
the user, and tok itself is sent exactly the current peer list. -/
theorem handle_join_message_fresh (s : P2PServer) (m : Message) (tok : Token) (now : Nat)
    (ts : SystemTime)
    (hnodup : (alKeys s.peers).Nodup)
    (hstreams : ∀ t ∈ alKeys s.peers, t ∈ s.streams)
    (htok : tok ∈ s.streams)
    (hfresh : ∀ kv ∈ s.peers, kv.2.user_id ≠ m.sender_id) :
    ((handle_join_message s m tok now ts).1.peers.filter
        (fun kv => kv.2.user_id = m.sender_id)).length = 1 ∧
    alLookup (handle_join_message s m tok now ts).1.user_to_token m.sender_id = some tok ∧
    (∀ t, t ∈ alKeys (handle_join_message s m tok now ts).1.peers → t ≠ tok →
      ((handle_join_message s m tok now ts).2.filter (fun sm => sm.1 = t)).length = 1 ∧
      (∀ sm ∈ (handle_join_message s m tok now ts).2, sm.1 = t →
          sm.2.msg_type = .UserJoined ∧ sm.2.content = some m.sender_id)) ∧
    (handle_join_message s m tok now ts).2.filter (fun sm => sm.1 = tok)
      = [(tok, peer_list_message (handle_join_message s m tok now ts).1 ts)] := by
  have hfst : (handle_join_message s m tok now ts).1 = join_insert s m tok now := rfl
  have hrecstreams : ∀ t ∈ (alKeys (join_insert s m tok now).peers).filter
      (fun t => t ≠ tok), t ∈ (join_insert s m tok now).streams := by
    intro t ht
    have hmem := List.mem_of_mem_filter ht
    rcases mem_alKeys_alInsert hmem with h | h
    · exact hstreams t h
    · exact h ▸ htok
  have hsends : (handle_join_message s m tok now ts).2
      = ((alKeys (join_insert s m tok now).peers).filter (fun t => t ≠ tok)).map
          (fun t => (t, join_notification m ts))
        ++ [(tok, peer_list_message (join_insert s m tok now) ts)] := by
    show ((alKeys (join_insert s m tok now).peers).filter (fun t => t ≠ tok)).flatMap
        (fun t => dispatchTo (join_insert s m tok now) t (join_notification m ts))
      ++ send_peer_list (join_insert s m tok now) tok ts = _
    rw [flatMap_dispatch _ _ _ hrecstreams]
    have hts : tok ∈ (join_insert s m tok now).streams := htok
    have hps : send_peer_list (join_insert s m tok now) tok ts
        = [(tok, peer_list_message (join_insert s m tok now) ts)] := by
      simp [send_peer_list, dispatchTo, hts]
    rw [hps]
  have hnodup1 : (alKeys (join_insert s m tok now).peers).Nodup :=
    alKeys_alInsert_nodup s.peers tok _ hnodup
  refine ⟨?_, ?_, ?_, ?_⟩
  · rw [hfst]
    simp only [join_insert, alInsert, List.filter_append]
    have hleft : ((s.peers.filter (fun kv => kv.1 ≠ tok)).filter
        (fun kv => kv.2.user_id = m.sender_id)) = [] := by
      rw [List.filter_eq_nil_iff]
      intro kv hkv
      have := hfresh kv (List.mem_of_mem_filter hkv)
      simpa using this
    rw [hleft]
    simp [PeerInfo.new]
  · rw [hfst]
    exact alLookup_alInsert_self s.user_to_token m.sender_id tok
  · intro t ht htne
    rw [hfst] at ht
    have hrec : t ∈ (alKeys (join_insert s m tok now).peers).filter (fun x => x ≠ tok) :=
      List.mem_filter.mpr ⟨ht, by simpa using htne⟩
    constructor
    · rw [hsends, List.filter_append, List.length_append]
      have hB : ([(tok, peer_list_message (join_insert s m tok now) ts)].filter
          (fun sm => sm.1 = t)).length = 0 := by
        simp [Ne.symm htne]
      have hA : ((((alKeys (join_insert s m tok now).peers).filter (fun x => x ≠ tok)).map
          (fun x => (x, join_notification m ts))).filter (fun sm => sm.1 = t)).length = 1 := by
        rw [List.filter_map]
        rw [List.length_map]
        exact filter_eq_singleton_length _ (hnodup1.filter _) hrec
      rw [hA, hB]
    · intro sm hsm hfstt
      rw [hsends] at hsm
      rcases List.mem_append.mp hsm with h | h
      · obtain ⟨x, _, rfl⟩ := List.mem_map.mp h
        exact ⟨rfl, rfl⟩
      · simp only [List.mem_singleton] at h
        subst h
        simp at hfstt
        exact absurd hfstt.symm htne
  · rw [hsends, List.filter_append]
    have hA : (((alKeys (join_insert s m tok now).peers).filter (fun x => x ≠ tok)).map
        (fun x => (x, join_notification m ts))).filter (fun sm => sm.1 = tok) = [] := by
      rw [List.filter_eq_nil_iff]
      intro sm hsm
      obtain ⟨x, hx, rfl⟩ := List.mem_map.mp hsm
      have := List.of_mem_filter hx
      simpa using this
    rw [hA]
    rw [hfst]
    simp

theorem handle_join_message_fresh_witness :
    (alKeys exampleServer.peers).Nodup ∧
      (((handle_join_message exampleServer
          { msg_type := .Join, sender_id := asciiBytes "carol", target_id := none,
            content := none, sender_peer_address := asciiBytes "127.0.0.1",
            sender_listen_port := 9103, timestamp := ⟨1700000400, 0⟩, source := .Server }
          4 70 ⟨1700000400, 0⟩).1.peers.filter
            (fun kv => kv.2.user_id = asciiBytes "carol")).length = 1) := by
  constructor
  · decide
  · have h := handle_join_message_fresh
      { streams := [2, 3, 4]
        buffers := [(2, []), (3, []), (4, [])]
        peers := exampleServer.peers
        user_to_token := exampleServer.user_to_token }
      { msg_type := .Join, sender_id := asciiBytes "carol", target_id := none,
        content := none, sender_peer_address := asciiBytes "127.0.0.1",
        sender_listen_port := 9103, timestamp := ⟨1700000400, 0⟩, source := .Server }
      4 70 ⟨1700000400, 0⟩ (by decide) (by decide) (by decide) (by decide)
    exact h.1


/-! ## Claim C8: stale-peer eviction -/

theorem remove_peer_peers (s : P2PServer) (tok : Token) :
    (remove_peer s tok).peers = alRemove s.peers tok := by
  unfold remove_peer
  cases alLookup s.peers tok <;> rfl

theorem remove_peer_streams (s : P2PServer) (tok : Token) :
    (remove_peer s tok).streams = s.streams.filter (fun t => t ≠ tok) := by
  unfold remove_peer
  cases alLookup s.peers tok <;> rfl

theorem remove_peer_buffers (s : P2PServer) (tok : Token) :
    (remove_peer s tok).buffers = alRemove s.buffers tok := by
  unfold remove_peer
  cases alLookup s.peers tok <;> rfl

theorem foldl_remove_peer_peers (l : List Token) : ∀ s : P2PServer,
    (l.foldl (fun st t => remove_peer st t) s).peers
      = s.peers.filter (fun kv => kv.1 ∉ l) := by
  induction l with
  | nil => intro s; simp
  | cons t l ih =>
    intro s
    rw [List.foldl_cons, ih, remove_peer_peers]
    unfold alRemove
    rw [List.filter_filter]
    apply List.filter_congr
    intro kv _
    by_cases h1 : kv.1 = t <;> by_cases h2 : kv.1 ∈ l <;> simp [h1, h2]

theorem foldl_remove_peer_streams (l : List Token) : ∀ s : P2PServer,
    (l.foldl (fun st t => remove_peer st t) s).streams
      = s.streams.filter (fun x => x ∉ l) := by
  induction l with
  | nil => intro s; simp
  | cons t l ih =>
    intro s
    rw [List.foldl_cons, ih, remove_peer_streams]
    rw [List.filter_filter]
    apply List.filter_congr
    intro x _
    by_cases h1 : x = t <;> by_cases h2 : x ∈ l <;> simp [h1, h2]

theorem foldl_remove_peer_buffers (l : List Token) : ∀ s : P2PServer,
    (l.foldl (fun st t => remove_peer st t) s).buffers
      = s.buffers.filter (fun kv => kv.1 ∉ l) := by
  induction l with
  | nil => intro s; simp
  | cons t l ih =>
    intro s
    rw [List.foldl_cons, ih, remove_peer_buffers]
    unfold alRemove
    rw [List.filter_filter]
    apply List.filter_congr
    intro kv _
    by_cases h1 : kv.1 = t <;> by_cases h2 : kv.1 ∈ l <;> simp [h1, h2]

theorem alLookup_eq_none {α β : Type} [DecidableEq α] {l : List (α × β)} {k : α}
    (h : ∀ kv ∈ l, kv.1 ≠ k) : alLookup l k = none := by
  unfold alLookup
  rw [List.find?_eq_none.mpr]
  · rfl
  · intro kv hkv
    simpa using h kv hkv

theorem alLookup_eq_some_of_mem_nodup {α β : Type} [DecidableEq α] :
    ∀ {l : List (α × β)}, (alKeys l).Nodup → ∀ {k : α} {v : β}, (k, v) ∈ l →
      alLookup l k = some v := by
  intro l
  induction l with
  | nil => intro _ k v hm; simp at hm
  | cons kv0 l ih =>
    intro hnd k v hm
    obtain ⟨k0, v0⟩ := kv0
    have hnd2 : (k0 :: alKeys l).Nodup := by
      simpa only [alKeys, List.map_cons] using hnd
    rcases List.mem_cons.mp hm with heq | hm2
    · injection heq with h1 h2
      subst h1; subst h2
      simp [alLookup]
    · have hk0 : k0 ≠ k := by
        intro h
        subst h
        have hkeys : k0 ∈ alKeys l := List.mem_map.mpr ⟨(k0, v), hm2, rfl⟩
        exact (List.nodup_cons.mp hnd2).1 hkeys
      have htail := ih (List.nodup_cons.mp hnd2).2 hm2
      simpa [alLookup, hk0] using htail

/-- C8: every directory entry whose last heartbeat lies more than the
60-second timeout window in the past is removed by the sweep together
with its stream and buffer; entries within the window are retained
untouched; the sweep emits no message at all (in particular no UserLeft);
and a user all of whose entries were stale appears in no tuple of the
peer list computed from the post-sweep state (the data of any subsequent
PeerList reply). -/
theorem check_peer_timeouts_evicts (s : P2PServer) (now : Nat)
    (hnodup : (alKeys s.peers).Nodup) :
    (check_peer_timeouts s now).2 = [] ∧
    (∀ t info, (t, info) ∈ s.peers → now - info.last_heartbeat > 60 →
        alLookup (check_peer_timeouts s now).1.peers t = none ∧
        t ∉ (check_peer_timeouts s now).1.streams ∧
        alLookup (check_peer_timeouts s now).1.buffers t = none) ∧
    (∀ t info, (t, info) ∈ s.peers → ¬ now - info.last_heartbeat > 60 →
        alLookup (check_peer_timeouts s now).1.peers t = some info) ∧
    (∀ U, (∀ kv ∈ s.peers, kv.2.user_id = U → now - kv.2.last_heartbeat > 60) →
        ∀ e ∈ peerListEntries (check_peer_timeouts s now).1, e.1 ≠ U) := by
  have hfst : (check_peer_timeouts s now).1
      = ((s.peers.filter (fun kv => now - kv.2.last_heartbeat > 60)).map
          (fun kv => kv.1)).foldl (fun st t => remove_peer st t) s := rfl
  have hpeers : (check_peer_timeouts s now).1.peers
      = s.peers.filter (fun kv => kv.1 ∉ (s.peers.filter
          (fun kv => now - kv.2.last_heartbeat > 60)).map (fun kv => kv.1)) := by
    rw [hfst, foldl_remove_peer_peers]
  have hstreams : (check_peer_timeouts s now).1.streams
      = s.streams.filter (fun x => x ∉ (s.peers.filter
          (fun kv => now - kv.2.last_heartbeat > 60)).map (fun kv => kv.1)) := by
    rw [hfst, foldl_remove_peer_streams]
  have hbuffers : (check_peer_timeouts s now).1.buffers
      = s.buffers.filter (fun kv => kv.1 ∉ (s.peers.filter
          (fun kv => now - kv.2.last_heartbeat > 60)).map (fun kv => kv.1)) := by
    rw [hfst, foldl_remove_peer_buffers]
  refine ⟨rfl, ?_, ?_, ?_⟩
  · intro t info hm hstale
    have htmem : t ∈ (s.peers.filter
        (fun kv => now - kv.2.last_heartbeat > 60)).map (fun kv => kv.1) :=
      List.mem_map.mpr ⟨(t, info), List.mem_filter.mpr ⟨hm, by simpa using hstale⟩, rfl⟩
    refine ⟨?_, ?_, ?_⟩
    · rw [hpeers]
      apply alLookup_eq_none
      intro kv hkv heq
      have h2 := of_decide_eq_true ((List.mem_filter.mp hkv).2)
      rw [heq] at h2
      exact h2 htmem
    · rw [hstreams]
      intro hmem
      exact of_decide_eq_true ((List.mem_filter.mp hmem).2) htmem
    · rw [hbuffers]
      apply alLookup_eq_none
      intro kv hkv heq
      have h2 := of_decide_eq_true ((List.mem_filter.mp hkv).2)
      rw [heq] at h2
      exact h2 htmem
  · intro t info hm hfresh
    have htnot : t ∉ (s.peers.filter
        (fun kv => now - kv.2.last_heartbeat > 60)).map (fun kv => kv.1) := by
      intro hmem
      obtain ⟨kv, hkv, hf⟩ := List.mem_map.mp hmem
      have hkvmem := List.mem_of_mem_filter hkv
      have hkvstale := List.of_mem_filter hkv
      have hkeys : kv = (t, info) := by
        have h1 : alLookup s.peers kv.1 = some kv.2 :=
          alLookup_eq_some_of_mem_nodup hnodup (by simpa using hkvmem)
        have h2 : alLookup s.peers t = some info :=
          alLookup_eq_some_of_mem_nodup hnodup hm
        rw [hf] at h1
        rw [h2] at h1
        obtain ⟨k1, v1⟩ := kv
        simp at hf h1
        simp [hf, h1]
      rw [hkeys] at hkvstale
      simp at hkvstale
      exact hfresh hkvstale
    rw [hpeers]
    have hnd2 : (alKeys (s.peers.filter (fun kv => kv.1 ∉ (s.peers.filter
        (fun kv => now - kv.2.last_heartbeat > 60)).map (fun kv => kv.1)))).Nodup := by
      apply List.Nodup.sublist _ hnodup
      exact ((List.filter_sublist s.peers).map _)
    exact alLookup_eq_some_of_mem_nodup hnd2
      (List.mem_filter.mpr ⟨hm, by simpa using htnot⟩)
  · intro U hall e hemem
    simp only [peerListEntries, List.mem_map] at hemem
    obtain ⟨kv, hkv, rfl⟩ := hemem
    rw [hpeers] at hkv
    intro hU
    have hkvmem := List.mem_of_mem_filter hkv
    have hstale := hall kv hkvmem hU
    have hnotin := of_decide_eq_true ((List.mem_filter.mp hkv).2)
    exact hnotin (List.mem_map.mpr ⟨kv,
      List.mem_filter.mpr ⟨hkvmem, by simpa using hstale⟩, rfl⟩)

theorem check_peer_timeouts_evicts_witness :
    (alKeys exampleServer.peers).Nodup ∧ (check_peer_timeouts exampleServer 200).2 = [] :=
  ⟨by decide, (check_peer_timeouts_evicts exampleServer 200 (by decide)).1⟩


/-! ## Claim C3: outbound queue vs inbound buffer
server.rs keeps ONE HashMap<Token, Vec<u8>> (field buffers) which
handle_readable/try_parse_messages use to accumulate inbound bytes AND
send_message/handle_writable use to queue and drain outbound bytes.
The byte-level model of those three paths on one connection's buffer
exhibits the mixing of directions. -/

/-- Outcome of a non-blocking socket write attempt. -/
inductive WriteOutcome where
  | wrote (n : Nat)
  | wouldBlock

/-- server.rs send_message (lines 416-453) acting on the connection's
buffer entry: the serialized bytes are offered to the socket; Ok(n) with
n short appends the unwritten tail data[n..] to the buffer, WouldBlock
appends all of data; a full write leaves the buffer alone.  (The fatal
error path removes the connection and is outside this claim.) -/
def send_message_buffer (buf : Bytes) (data : Bytes) : WriteOutcome → Bytes
  | .wrote n => if n < data.length then buf ++ data.drop n else buf
  | .wouldBlock => buf ++ data

/-- server.rs handle_writable (lines 373-413) acting on the connection's
buffer entry: when non-empty, write from its front; Ok(n) with n short
drains the written prefix and keeps the rest, a complete write clears
the buffer; returns the new buffer and the bytes put on the wire. -/
def handle_writable_buffer (buf : Bytes) : WriteOutcome → Bytes × Bytes
  | .wrote n =>
    if buf = [] then (buf, [])
    else if n < buf.length then (buf.drop n, buf.take n)
    else ([], buf)
  | .wouldBlock => (buf, [])

/-- server.rs handle_readable Ok(n) path: append the bytes read to the
same buffer entry, then extract frames. -/
def handle_readable_buffer (buf : Bytes) (read : Bytes) : List Message × Bytes :=
  try_parse_messages (buf ++ read)

/-- C3 (code bug): the server keeps no outbound byte queue separate from
the inbound accumulation buffer — the same Vec<u8> serves both
directions.  Concretely: from an empty buffer, reading the single byte
65 (no delimiter) leaves it as inbound residue; send_message hits
WouldBlock and queues the frame [66, 67, 10] after it; (i) when the
socket then accepts one byte, the byte put on the wire is 65 — inbound
residue echoed back to the peer instead of the queued outbound prefix
66; and (ii) frame extraction over that same buffer consumes the queued
outbound bytes as part of an inbound frame, leaving nothing queued —
the outbound bytes are dropped. -/
theorem shared_buffer_mixes_directions :
    (handle_readable_buffer [] [65]).2 = [65] ∧
    send_message_buffer (handle_readable_buffer [] [65]).2 [66, 67, 10]
        WriteOutcome.wouldBlock = [65, 66, 67, 10] ∧
    (handle_writable_buffer [65, 66, 67, 10] (WriteOutcome.wrote 1)).2 = [65] ∧
    (handle_writable_buffer [65, 66, 67, 10] (WriteOutcome.wrote 1)).2
      ≠ [66, 67, 10].take 1 ∧
    (try_parse_messages [65, 66, 67, 10]).2 = [] := by
  have hempty : extractFrames [] = ([], []) := extractFrames_no_delim [] (by simp)
  have h1 : (handle_readable_buffer [] [65]).2 = [65] := by
    show (try_parse_messages ([] ++ [65])).2 = [65]
    simp only [try_parse_messages, List.nil_append]
    rw [extractFrames_no_delim [65] (by decide)]
  have h5 : (try_parse_messages [65, 66, 67, 10]).2 = [] := by
    simp only [try_parse_messages]
    have hsplit : ([65, 66, 67, 10] : Bytes) = [65, 66, 67] ++ 10 :: [] := rfl
    rw [hsplit, extractFrames_step [65, 66, 67] [] (by decide), hempty]
  refine ⟨h1, ?_, by decide, by decide, h5⟩
  rw [h1]
  decide

/-! ## Client state (src/p2p/src/client.rs) for claims C7 and C9 -/

/-- client.rs MessageTarget. -/
inductive MessageTarget where
  | Server
  | Peer (tok : Token)
  deriving DecidableEq, Repr

/-- client.rs PendingMessage. -/
structure PendingMessage where
  target : MessageTarget
  message : Message
  deriving DecidableEq, Repr

/-- The client state the routing and message handling touch (struct
P2PClient): its identity, its advertised listen port, the known-peer
directory, and the map of established direct links. -/
structure P2PClient where
  user_id : ByteStr
  listen_port : Nat
  known_peers : List (ByteStr × PeerInfo)
  peer_to_token : List (ByteStr × Token)
  deriving DecidableEq, Repr

/-- client.rs create_smart_chat_message (lines 122-160): with a target
that has an established direct link, a Peer-routed message tagged
source = Peer carrying the real listen port; otherwise (unknown target
or no target) a Server-routed message tagged source = Server. -/
def create_smart_chat_message (c : P2PClient) (target_id : Option ByteStr)
    (content : ByteStr) (ts : SystemTime) : PendingMessage :=
  let server_pending : PendingMessage :=
    { target := .Server
      message :=
        { msg_type := .Chat
          sender_id := c.user_id
          target_id := target_id
          content := some content
          sender_peer_address := asciiBytes "127.0.0.1"
          sender_listen_port := 0
          timestamp := ts
          source := .Server } }
  match target_id with
  | some target =>
    match alLookup c.peer_to_token target with
    | some peer_token =>
      { target := .Peer peer_token
        message :=
          { msg_type := .Chat
            sender_id := c.user_id
            target_id := target_id
            content := some content
            sender_peer_address := asciiBytes "127.0.0.1"
            sender_listen_port := c.listen_port
            timestamp := ts
            source := .Peer } }
    | none => server_pending
  | none => server_pending

/-- Conversion of one JSON value to a (user_id, address, port) tuple, as
serde deserializes the tuple from a 3-element array. -/
def peerTuple : JValue → Option (ByteStr × ByteStr × Nat)
  | .jarr [.jstr u, .jstr a, .jnum p] => if p < 2 ^ 16 then some (u, a, p) else none
  | _ => none

def peerTuples : List JValue → Option (List (ByteStr × ByteStr × Nat))
  | [] => some []
  | v :: vs =>
    match peerTuple v, peerTuples vs with
    | some t, some ts => some (t :: ts)
    | _, _ => none

/-- serde_json::from_str::<Vec<(String, String, u16)>> on a PeerList
content string. -/
def parsePeerListContent (content : ByteStr) : Option (List (ByteStr × ByteStr × Nat)) :=
  match parseJValue (content.length + 1) content with
  | some (.jarr es, rest) => if skipWs rest = [] then peerTuples es else none
  | _ => none

/-- client.rs handle_message (lines 555-596): Chat only prints; PeerList
parses the content and upserts every tuple whose user id is not the
client's own into known_peers; every other message type — including
ConnectResponse and UserLeft — falls into the catch-all and does
nothing.  now stamps the Instant::now() of PeerInfo::new. -/
def client_handle_message (c : P2PClient) (m : Message) (now : Nat) : P2PClient :=
  match m.msg_type with
  | .PeerList =>
    match m.content with
    | some content =>
      match parsePeerListContent content with
      | some peer_list =>
        { c with known_peers := peer_list.foldl (fun kp e =>
            if e.1 ≠ c.user_id then alInsert kp e.1 (PeerInfo.new e.1 e.2.1 e.2.2 now)
            else kp) c.known_peers }
      | none => c
    | none => c
  | _ => c


/-! ## Claims C7 and C9: client message handling and smart-send -/

/-- A client, alice, with bob known and directly linked on token 1000. -/
def exampleClient : P2PClient :=
  { user_id := asciiBytes "alice"
    listen_port := 9101
    known_peers := [(asciiBytes "bob", ⟨asciiBytes "bob", asciiBytes "127.0.0.1", 9102, 0⟩)]
    peer_to_token := [(asciiBytes "bob", 1000)] }

/-- A ConnectResponse naming carol with her advertised endpoint. -/
def exampleConnectResponseCarol : Message :=
  { msg_type := .ConnectResponse
    sender_id := asciiBytes "carol"
    target_id := some (asciiBytes "alice")
    content := some (asciiBytes "127.0.0.1,9103")
    sender_peer_address := asciiBytes "127.0.0.1"
    sender_listen_port := 9103
    timestamp := ⟨1700000500, 0⟩
    source := .Server }

/-- A UserLeft naming bob. -/
def exampleUserLeftBob : Message :=
  { msg_type := .UserLeft
    sender_id := asciiBytes "bob"
    target_id := none
    content := some (asciiBytes "bob")
    sender_peer_address := []
    sender_listen_port := 0
    timestamp := ⟨1700000600, 0⟩
    source := .Server }

/-- C7 counterexample: the client ignores both messages the claim is
about.  After a ConnectResponse naming carol, the state is unchanged
and carol is absent from the known-peer directory (so no connect
attempt was triggered either); after a UserLeft naming bob, bob is
still in the directory and the direct link to him is still mapped. -/
theorem client_handle_message_ignores_counterexample :
    client_handle_message exampleClient exampleConnectResponseCarol 7 = exampleClient ∧
    alLookup (client_handle_message exampleClient exampleConnectResponseCarol 7).known_peers
      (asciiBytes "carol") = none ∧
    client_handle_message exampleClient exampleUserLeftBob 7 = exampleClient ∧
    alLookup (client_handle_message exampleClient exampleUserLeftBob 7).known_peers
      (asciiBytes "bob")
      = some ⟨asciiBytes "bob", asciiBytes "127.0.0.1", 9102, 0⟩ ∧
    alLookup (client_handle_message exampleClient exampleUserLeftBob 7).peer_to_token
      (asciiBytes "bob") = some 1000 := by
  decide

/-- C7 (amended): the client's handle_message mutates state only on
PeerList; every other message type — ConnectResponse and UserLeft
included — is ignored: no known-peer upsert or removal, no change to
the direct-link map, and, the handler having no other effect, no
connect attempt and no teardown. -/
theorem client_handle_message_non_peerlist (c : P2PClient) (m : Message) (now : Nat)
    (h : m.msg_type ≠ .PeerList) : client_handle_message c m now = c := by
  cases hmt : m.msg_type <;> simp_all [client_handle_message]

theorem client_handle_message_non_peerlist_witness :
    exampleConnectResponseCarol.msg_type ≠ MessageType.PeerList ∧
      client_handle_message exampleClient exampleConnectResponseCarol 7 = exampleClient :=
  ⟨by decide, client_handle_message_non_peerlist exampleClient exampleConnectResponseCarol 7
    (by decide)⟩

/-- C9: smart-send routing: with a target that has an established direct
link, the pending message is routed to that peer's connection and
tagged source = Peer; with a target lacking a direct link it is routed
to the server link and tagged source = Server; with no target it is
always routed to the server link, tagged source = Server. -/
theorem create_smart_chat_message_routing (c : P2PClient) (target_id : Option ByteStr)
    (content : ByteStr) (ts : SystemTime) :
    (∀ t tok, target_id = some t → alLookup c.peer_to_token t = some tok →
        (create_smart_chat_message c target_id content ts).target = .Peer tok ∧
        (create_smart_chat_message c target_id content ts).message.source = .Peer) ∧
    (∀ t, target_id = some t → alLookup c.peer_to_token t = none →
        (create_smart_chat_message c target_id content ts).target = .Server ∧
        (create_smart_chat_message c target_id content ts).message.source = .Server) ∧
    (target_id = none →
        (create_smart_chat_message c target_id content ts).target = .Server ∧
        (create_smart_chat_message c target_id content ts).message.source = .Server) := by
  refine ⟨?_, ?_, ?_⟩
  · intro t tok hmt hl
    subst hmt
    simp [create_smart_chat_message, hl]
  · intro t hmt hl
    subst hmt
    simp [create_smart_chat_message, hl]
  · intro hmt
    subst hmt
    simp [create_smart_chat_message]

theorem create_smart_chat_message_routing_witness :
    alLookup exampleClient.peer_to_token (asciiBytes "bob") = some 1000 ∧
      (create_smart_chat_message exampleClient (some (asciiBytes "bob"))
          (asciiBytes "hey") ⟨0, 0⟩).target = MessageTarget.Peer 1000 ∧
      (create_smart_chat_message exampleClient (some (asciiBytes "bob"))
          (asciiBytes "hey") ⟨0, 0⟩).message.source = MessageSource.Peer :=
  ⟨by decide, (create_smart_chat_message_routing exampleClient (some (asciiBytes "bob"))
      (asciiBytes "hey") ⟨0, 0⟩).1 (asciiBytes "bob") 1000 rfl (by decide)⟩

end P2P
